import Mathlib

/-!
Verification of the region-file biome remapper (terralith_biome_remap_standalone.py)
against its natural-language specification.

The Python source is shallowly embedded:
* `bytes` values become `List Nat` (each element a byte value `< 256` where that matters;
  the faithfulness hypotheses of the theorems state the byte bounds explicitly);
* the dynamic NBT values handled by nbtlib become the inductive type `Nbt`;
* Python dictionaries with string keys become association lists (`cGet` / `cSet` model
  `dict.get` and in-place mutation of the value found at a key);
* fallible operations return `Option` or `Except`;
* the external gzip/zlib codecs and the nbtlib binary (de)serializer are opaque function
  parameters, universally quantified in every theorem that involves them.
-/

set_option maxRecDepth 16000

/-! ## Byte-string helpers -/

/-- Big-endian interpretation of a byte string, as computed by `int.from_bytes(b, "big")`
and `struct.unpack(">I", b)`. -/
def beBytesToNat (l : List Nat) : Nat := l.foldl (fun a x => a * 256 + x) 0

/-- `l[off : off+len]` for in-range slices (Python slices clamp at the ends, and so do
`drop`/`take`). -/
def byteSlice (l : List Nat) (off len : Nat) : List Nat := (l.drop off).take len

/-- Python `l[:n]` where `n` may be negative: a negative index counts from the end of the
list (clamping at 0). -/
def pySliceTo (l : List Nat) (n : Int) : List Nat :=
  if n < 0 then l.take (l.length - (-n).toNat) else l.take n.toNat

/-- `int(n).to_bytes(3, "big")`, for `n < 2^24` (the source only serializes sector offsets,
which are bounded by `2 + 255*1024 < 2^24`). -/
def be3 (n : Nat) : List Nat := [n / 65536 % 256, n / 256 % 256, n % 256]

/-- `int(n).to_bytes(4, "big")` / `struct.pack(">I", n)`, for `n < 2^32` (Python raises
`OverflowError` beyond that; the theorems carry the corresponding bounds). -/
def be4 (n : Nat) : List Nat := [n / 16777216 % 256, n / 65536 % 256, n / 256 % 256, n % 256]

/-! ## The NBT value model

nbtlib's parsed values are Python objects: `Compound` is a `dict` subclass, `List` a
`list` subclass (hence a `MutableSequence`), `String` a `str` subclass, the integer tags
are `int` subclasses, and the packed-array tags are numpy arrays.  `Nbt.byteArray` stands
for the packed-array tags (and any other tag shape the walked code treats opaquely): it is
neither a `dict` nor a `MutableSequence`. -/

inductive Nbt where
  | string (s : String)
  | int (i : Int)
  | list (xs : List Nbt)
  | compound (xs : List (String × Nbt))
  | byteArray

/-- `dict.get(k)`: the value at the first binding of `k` (parsed NBT compounds never
carry duplicate keys). -/
def cGet (c : List (String × Nbt)) (k : String) : Option Nbt :=
  match c with
  | [] => none
  | (k', v) :: rest => if k' = k then some v else cGet rest k

/-- The structural effect of mutating, in place, the value found at key `k`: the first
binding of `k` is replaced, everything else is untouched.  (The Python code never inserts
or deletes keys; it only mutates list values it found via `dict.get`.) -/
def cSet (c : List (String × Nbt)) (k : String) (v : Nbt) : List (String × Nbt) :=
  match c with
  | [] => []
  | (k', v') :: rest => if k' = k then (k', v) :: rest else (k', v') :: cSet rest k v

/-- Python truthiness of an nbtlib value.  `none` means the truth test itself raises:
numpy arrays (the packed-array tags) raise `ValueError` on `bool()` when their size is
not 1. -/
def nbtTruthy : Nbt → Option Bool
  | .string s => some (s ≠ "")
  | .int i => some (i ≠ 0)
  | .list xs => some (!xs.isEmpty)
  | .compound xs => some (!xs.isEmpty)
  | .byteArray => none

/-- `str(v)` restricted to the values that can denote a biome id.  `String` stringifies to
itself and the integer tags to their decimal form; `List`/`Compound`/array values
stringify to bracketed Python reprs, which are never `namespace:name` biome ids and never
hit a mapping, so they are modelled as unreadable (the caller skips them). -/
def nbtStr : Nbt → Option String
  | .string s => some s
  | .int i => some (toString i)
  | _ => none

/-! ## Remap engine: normalization and the per-entry step -/

/-- `name.startswith(p)`, stated on the character lists (definitionally evaluable, unlike
`String.startsWith`, and equal to it: a UTF-8 string starts with another iff its character
list does). -/
def strStartsWith (s p : String) : Bool := p.data.isPrefixOf s.data

/-- `name[n:]` on the character list. -/
def strDrop (s : String) (n : Nat) : String := ⟨s.data.drop n⟩

/-- `_normalize_biome_name`: both universal prefixes are 20 characters long and contain a
single `:` at position 19, so `name.split(":", 1)[1]` is `name` without its first 20
characters. -/
def normalize_biome_name (name : String) : String :=
  if strStartsWith name "universal_minecraft:" then "minecraft:" ++ strDrop name 20
  else if strStartsWith name "universal_terralith:" then "terralith:" ++ strDrop name 20
  else name

/-- Python truthiness of `Optional[str]`: `None` and `""` are falsy. -/
def optStrTruthy : Option String → Bool
  | none => false
  | some s => s ≠ ""

/-- The body of the palette-entry loop of `_remap_chunk_biome_palettes` (lines 481-494):
read the entry as a string, normalize, look it up, apply the `unmapped_terralith_to`
fallback when the looked-up value is falsy, and overwrite (returning `true`) exactly when
the final value is truthy and differs from the normalized name.  `changed = True` and
`entries_changed += 1` happen together in the source, so the step returns one flag. -/
def remapEntry (mapping : String → Option String) (fallback : Option String) (e : Nbt) :
    Nbt × Bool :=
  match nbtStr e with
  | none => (e, false)
  | some raw =>
    let norm := normalize_biome_name raw
    let looked := mapping norm
    let new :=
      if !optStrTruthy looked && optStrTruthy fallback && strStartsWith norm "terralith:" then
        fallback
      else looked
    match new with
    | some r => if r ≠ "" ∧ r ≠ norm then (.string r, true) else (e, false)
    | none => (e, false)

/-- `for i in range(len(palette)): ...` — each entry is rewritten independently, the
changed flag and the entry count accumulate. -/
def remapPaletteLoop (mapping : String → Option String) (fallback : Option String) :
    List Nbt → List Nbt × Bool × Nat
  | [] => ([], false, 0)
  | e :: rest =>
    let (e', b) := remapEntry mapping fallback e
    let (l, ch, n) := remapPaletteLoop mapping fallback rest
    (e' :: l, b || ch, (if b then 1 else 0) + n)

/-! ## Sections: Y filter, palette iteration, per-section remap -/

/-- `_section_y`: `int(section["Y"])` under `try/except`.  Integer tags convert directly;
a `String` converts when it is a decimal literal (Python `int(str)`); anything else
raises and yields `None`. -/
def section_y (s : Nbt) : Option Int :=
  match s with
  | .compound c =>
    match cGet c "Y" with
    | some (.int i) => some i
    | some (.string str) => str.toInt?
    | _ => none
  | _ => none

/-- The section filter of `_remap_chunk_biome_palettes` (lines 462-467): a section is
skipped exactly when its `Y` is readable, both bounds are given, and
`sec_max < y_min or sec_min > y_max` for `sec_min = Y*16`, `sec_max = Y*16 + 15`. -/
def sectionSkipped (yMin yMax : Option Int) (s : Nbt) : Bool :=
  match section_y s, yMin, yMax with
  | some sy, some a, some b => decide (sy * 16 + 15 < a) || decide (sy * 16 > b)
  | _, _, _ => false

/-- `_iter_biome_palette_lists`: the palette lists yielded for one section, in order.
`none` models the generator raising: the only raise site is the truth test in
`biomes.get("palette") or biomes.get("Palette")` when the `palette` value is a packed
array (numpy truth-value error).  Branch one (`biomes`) only ever reads the lowercase
`palette` key and performs no truth test; branch two (`Biomes`) tries `palette` then
`Palette`, where a falsy `palette` value (e.g. an empty list) falls through to
`Palette`. -/
def iter_biome_palette_lists (s : Nbt) : Option (List (List Nbt)) :=
  match s with
  | .compound c =>
    let first : List (List Nbt) :=
      match cGet c "biomes" with
      | some (.compound bc) =>
        match cGet bc "palette" with
        | some (.list pal) => [pal]
        | _ => []
      | _ => []
    match cGet c "Biomes" with
    | some (.compound bc) =>
      let sel : Option (Option Nbt) :=
        match cGet bc "palette" with
        | none => some (cGet bc "Palette")
        | some v =>
          match nbtTruthy v with
          | none => none
          | some true => some (some v)
          | some false => some (cGet bc "Palette")
      match sel with
      | none => none
      | some (some (.list pal)) => some (first ++ [pal])
      | some _ => some first
    | _ => some first
  | _ => some []

/-- Branch one of `_iter_biome_palette_lists` driven with in-place palette mutation:
when `biomes` is a compound whose `palette` value is a list, that list is rewritten.
Returns the updated compound and this branch's (changed, entries) contribution. -/
def remapBranch1 (mapping : String → Option String) (fallback : Option String)
    (c : List (String × Nbt)) : List (String × Nbt) × Bool × Nat :=
  match cGet c "biomes" with
  | some (.compound bc) =>
    match cGet bc "palette" with
    | some (.list pal) =>
      (cSet c "biomes"
        (.compound (cSet bc "palette" (.list (remapPaletteLoop mapping fallback pal).1))),
       (remapPaletteLoop mapping fallback pal).2.1, (remapPaletteLoop mapping fallback pal).2.2)
    | _ => (c, false, 0)
  | _ => (c, false, 0)

/-- Branch two: when `Biomes` is a compound, `biomes.get("palette") or biomes.get("Palette")`
selects the `palette` value if it is truthy (raising on a packed array, modelled as
`none`), else the `Palette` value; a selected list is rewritten in place at the key it
was found under. -/
def remapBranch2 (mapping : String → Option String) (fallback : Option String)
    (c1 : List (String × Nbt)) : Option (List (String × Nbt) × Bool × Nat) :=
  match cGet c1 "Biomes" with
  | some (.compound bc) =>
    match cGet bc "palette" with
    | some v =>
      match nbtTruthy v with
      | none => none
      | some true =>
        match v with
        | .list pal =>
          some (cSet c1 "Biomes"
              (.compound (cSet bc "palette" (.list (remapPaletteLoop mapping fallback pal).1))),
            (remapPaletteLoop mapping fallback pal).2.1,
            (remapPaletteLoop mapping fallback pal).2.2)
        | _ => some (c1, false, 0)
      | some false =>
        match cGet bc "Palette" with
        | some (.list pal) =>
          some (cSet c1 "Biomes"
              (.compound (cSet bc "Palette" (.list (remapPaletteLoop mapping fallback pal).1))),
            (remapPaletteLoop mapping fallback pal).2.1,
            (remapPaletteLoop mapping fallback pal).2.2)
        | _ => some (c1, false, 0)
    | none =>
      match cGet bc "Palette" with
      | some (.list pal) =>
        some (cSet c1 "Biomes"
            (.compound (cSet bc "Palette" (.list (remapPaletteLoop mapping fallback pal).1))),
          (remapPaletteLoop mapping fallback pal).2.1,
          (remapPaletteLoop mapping fallback pal).2.2)
      | _ => some (c1, false, 0)
  | _ => some (c1, false, 0)

/-- Per-section remap: the loop body of `_remap_chunk_biome_palettes` for one section
that passed the Y filter: both generator branches run in order (branch two sees branch
one's mutation); flags or-accumulate and counts add.  `none` models the numpy
truth-value error, which the region worker catches as a chunk parse error. -/
def remapSection (mapping : String → Option String) (fallback : Option String) (s : Nbt) :
    Option (Nbt × Bool × Nat) :=
  match s with
  | .compound c =>
    match remapBranch2 mapping fallback (remapBranch1 mapping fallback c).1 with
    | none => none
    | some (c2, b2, n2) =>
      some (.compound c2, (remapBranch1 mapping fallback c).2.1 || b2,
        (remapBranch1 mapping fallback c).2.2 + n2)
  | _ => some (s, false, 0)

/-- The `for section in sections:` loop: skipped sections are kept verbatim, processed
sections are rewritten by `remapSection`; flags or-accumulate and counts add up. -/
def remapSectionsLoop (mapping : String → Option String) (fallback : Option String)
    (yMin yMax : Option Int) : List Nbt → Option (List Nbt × Bool × Nat)
  | [] => some ([], false, 0)
  | s :: rest =>
    if sectionSkipped yMin yMax s then
      (remapSectionsLoop mapping fallback yMin yMax rest).map fun (l, ch, n) =>
        (s :: l, ch, n)
    else
      match remapSection mapping fallback s with
      | none => none
      | some (s', ch1, n1) =>
        (remapSectionsLoop mapping fallback yMin yMax rest).map fun (l, ch, n) =>
          (s' :: l, ch1 || ch, n1 + n)

/-- Treatment of the value found at the sections key.  `if not sections: return (False, 0)`
truth-tests it (raising for packed arrays); a list is iterated by the section loop;
iterating a truthy `Compound` or `String` yields strings, which carry no palettes and are
left untouched; iterating a truthy integer tag raises `TypeError` (caught by the worker as
a chunk parse error). -/
def remapSectionsVal (mapping : String → Option String) (fallback : Option String)
    (yMin yMax : Option Int) (v : Nbt) : Option (Nbt × Bool × Nat) :=
  match nbtTruthy v with
  | none => none
  | some false => some (v, false, 0)
  | some true =>
    match v with
    | .list l =>
      (remapSectionsLoop mapping fallback yMin yMax l).map fun (l', ch, n) =>
        (.list l', ch, n)
    | .compound _ => some (v, false, 0)
    | .string _ => some (v, false, 0)
    | _ => none

/-- `_get_sections` combined with writing the mutated sections value back along the same
path: root-level `sections`, root-level `Sections`, then `Level.sections` /
`Level.Sections`, first match wins; a root without any of them (or whose `Level` is not a
compound) reports `(False, 0)` unchanged. -/
def remap_chunk_biome_palettes (mapping : String → Option String) (fallback : Option String)
    (yMin yMax : Option Int) (root : Nbt) : Option (Nbt × Bool × Nat) :=
  match root with
  | .compound c =>
    match cGet c "sections" with
    | some v =>
      (remapSectionsVal mapping fallback yMin yMax v).map fun (v', ch, n) =>
        (.compound (cSet c "sections" v'), ch, n)
    | none =>
      match cGet c "Sections" with
      | some v =>
        (remapSectionsVal mapping fallback yMin yMax v).map fun (v', ch, n) =>
          (.compound (cSet c "Sections" v'), ch, n)
      | none =>
        match cGet c "Level" with
        | some (.compound lc) =>
          match cGet lc "sections" with
          | some v =>
            (remapSectionsVal mapping fallback yMin yMax v).map fun (v', ch, n) =>
              (.compound (cSet c "Level" (.compound (cSet lc "sections" v'))), ch, n)
          | none =>
            match cGet lc "Sections" with
            | some v =>
              (remapSectionsVal mapping fallback yMin yMax v).map fun (v', ch, n) =>
                (.compound (cSet c "Level" (.compound (cSet lc "Sections" v'))), ch, n)
            | none => some (root, false, 0)
        | _ => some (root, false, 0)
  | _ => some (root, false, 0)

/-! ## Chunk envelope codec -/

inductive DecompressError where
  | invalidBlob
  | lengthMismatch
  | gzipError
  | zlibError
  | unknownCompression (c : Nat)
deriving DecidableEq

/-- `_decompress_chunk_nbt`.  `gunzip`/`zunzip` are the external gzip/zlib decoders
(`none` = the library raised).  The declared length `L` is compared to
`len(payload) + 1`; on mismatch Python evaluates `payload[: length - 1]`, which for
`L = 0` is the negative-index slice `payload[:-1]`. -/
def decompress_chunk_nbt (gunzip zunzip : List Nat → Option (List Nat)) (blob : List Nat) :
    Except DecompressError (List Nat) :=
  if blob.length < 5 then .error .invalidBlob
  else
    let length := beBytesToNat (blob.take 4)
    let comp := blob.getD 4 0
    let payload := blob.drop 5
    let fixed : Except DecompressError (List Nat) :=
      if length ≠ payload.length + 1 then
        if (length : Int) - 1 ≤ (payload.length : Int) then
          .ok (pySliceTo payload ((length : Int) - 1))
        else .error .lengthMismatch
      else .ok payload
    match fixed with
    | .error e => .error e
    | .ok p =>
      if comp = 1 then
        match gunzip p with
        | some r => .ok r
        | none => .error .gzipError
      else if comp = 2 then
        match zunzip p with
        | some r => .ok r
        | none => .error .zlibError
      else if comp = 3 then .ok p
      else .error (.unknownCompression comp)

/-- `_compress_chunk_nbt`.  `gzipC`/`zlibC` are the external encoders (total).  An unknown
requested type falls back to zlib with tag 2.  The 4-byte length field is
`len(payload) + 1`. -/
def compress_chunk_nbt (gzipC zlibC : List Nat → List Nat) (nbtBytes : List Nat)
    (compressionType : Nat) : List Nat :=
  let pc : List Nat × Nat :=
    if compressionType = 1 then (gzipC nbtBytes, 1)
    else if compressionType = 2 then (zlibC nbtBytes, 2)
    else if compressionType = 3 then (nbtBytes, 3)
    else (zlibC nbtBytes, 2)
  be4 (pc.1.length + 1) ++ pc.2 :: pc.1

/-- `_chunk_blob_compression_type`: `blob[4] if len(blob) >= 5 else 2`. -/
def chunk_blob_compression_type (blob : List Nat) : Nat :=
  if 5 ≤ blob.length then blob.getD 4 2 else 2

/-! ## Per-chunk processing (the try-body of the chunk loop in `_process_region_file`) -/

/-- Outcome of processing one extracted chunk blob: the chunk either fails somewhere in
decompress / NBT parse / palette walk (`parseError`, counted in `parse_errors` and
nothing else), or parses with no palette change (`unchanged`), or is rewritten into a new
blob recorded in `updated_blobs` with `changed = True` and its entry count added to
`entries_changed`. -/
inductive ChunkOutcome where
  | parseError
  | unchanged
  | rewritten (blob : List Nat) (entriesChanged : Nat)

/-- One iteration of the chunk loop of `_process_region_file` (lines 668-712), for a chunk
whose blob was extracted.  `parseNbt` / `writeNbt` are nbtlib's binary reader and writer
(opaque here); the compression tag is observed before decompression and reused for
re-compression. -/
def process_chunk (gzipC zlibC : List Nat → List Nat)
    (gunzip zunzip : List Nat → Option (List Nat))
    (parseNbt : List Nat → Option Nbt) (writeNbt : Nbt → List Nat)
    (mapping : String → Option String) (fallback : Option String)
    (yMin yMax : Option Int) (blob : List Nat) : ChunkOutcome :=
  let comp := chunk_blob_compression_type blob
  match decompress_chunk_nbt gunzip zunzip blob with
  | .error _ => .parseError
  | .ok raw =>
    match parseNbt raw with
    | none => .parseError
    | some root =>
      match remap_chunk_biome_palettes mapping fallback yMin yMax root with
      | none => .parseError
      | some (root', wasChanged, ec) =>
        if wasChanged then
          .rewritten (compress_chunk_nbt gzipC zlibC (writeNbt root') comp) ec
        else .unchanged

/-! ## Region codec -/

/-- `_read_locations`: 1024 entries of (24-bit big-endian sector offset, 8-bit sector
count) read from the first 4096 bytes.  Faithful to Python for regions of at least 4096
bytes (below that `entry[3]` raises `IndexError`; the theorems assume `4096 ≤ length`). -/
def read_locations (region : List Nat) : List (Nat × Nat) :=
  (List.range 1024).map fun i =>
    let entry := (region.drop (i * 4)).take 4
    (beBytesToNat (entry.take 3), entry.getD 3 0)

/-- `_read_timestamps`: 1024 32-bit big-endian values read from bytes 4096..8191
(`int.from_bytes` of a clamped slice never raises). -/
def read_timestamps (region : List Nat) : List Nat :=
  (List.range 1024).map fun i =>
    beBytesToNat ((region.drop (4096 + i * 4)).take 4)

/-- `_get_chunk_blob`: bounds-check the sector range, read the 4-byte length, reject a
non-positive length (a u32 is non-negative, so only 0 is rejected), bounds-check the blob
end, and return the `length + 4` byte blob. -/
def get_chunk_blob (region : List Nat) (offSectors sectorCount : Nat) : Option (List Nat) :=
  if offSectors = 0 ∨ sectorCount = 0 then none
  else
    let start := offSectors * 4096
    let stop := start + sectorCount * 4096
    if region.length < start + 5 ∨ region.length < stop then none
    else
      let length := beBytesToNat (byteSlice region start 4)
      if length = 0 then none
      else if region.length < start + 4 + length then none
      else some (byteSlice region start (4 + length))

/-! ## Region rebuild (`_rebuild_region`) -/

inductive RebuildError where
  | chunkTooLarge (sectors : Nat)
deriving DecidableEq

/-- `max(1, math.ceil(len(blob) / 4096))`.  Dividing by `4096 = 2^12` is exact in binary
floating point, so the float `ceil` equals the integer ceiling `(len + 4095) / 4096`. -/
def sectorsNeededFor (blob : List Nat) : Nat := max 1 ((blob.length + 4095) / 4096)

/-- The loop state of `_rebuild_region`: the payload bytes written after the 8 KiB header,
the `current_sector` counter, and the `new_locs` / `new_ts` tables. -/
structure RState where
  payload : List Nat
  cur : Nat
  locs : List (Nat × Nat)
  ts : List Nat

/-- The per-index blob/timestamp choice of the rebuild loop: skip absent slots; an entry
of `updated_blobs` supplies its blob and timestamps per its changed flag; otherwise
re-extract the original blob (skipping the slot when that fails) and keep the original
timestamp. -/
def emitAt (original : List Nat) (updated : Nat → Option (List Nat × Bool))
    (locsOld : List (Nat × Nat)) (tsOld : List Nat) (now idx : Nat) :
    Option (List Nat × Nat) :=
  let e := locsOld.getD idx (0, 0)
  if e.1 = 0 ∨ e.2 = 0 then none
  else
    match updated idx with
    | some (blob, wasChanged) => some (blob, if wasChanged then now else tsOld.getD idx 0)
    | none => (get_chunk_blob original e.1 e.2).map fun b => (b, tsOld.getD idx 0)

/-- The `for idx in range(1024):` loop of `_rebuild_region`: emitted blobs are appended
(zero-padded to a sector boundary) at `current_sector`, which advances by the allocated
sector count; a blob needing more than 255 sectors aborts the whole rebuild. -/
def rebuildLoop (original : List Nat) (updated : Nat → Option (List Nat × Bool))
    (locsOld : List (Nat × Nat)) (tsOld : List Nat) (now : Nat) :
    List Nat → RState → Except RebuildError RState
  | [], st => .ok st
  | idx :: rest, st =>
    match emitAt original updated locsOld tsOld now idx with
    | none => rebuildLoop original updated locsOld tsOld now rest st
    | some (blob, tsv) =>
      let sn := sectorsNeededFor blob
      if 255 < sn then .error (.chunkTooLarge sn)
      else
        rebuildLoop original updated locsOld tsOld now rest
          { payload := st.payload ++ blob ++ List.replicate (sn * 4096 - blob.length) 0
            cur := st.cur + sn
            locs := st.locs.set idx (st.cur, sn)
            ts := st.ts.set idx tsv }

/-- One location-table entry: `int(off).to_bytes(3, "big")` then `count & 0xFF`. -/
def locEntryBytes (e : Nat × Nat) : List Nat := be3 e.1 ++ [e.2 % 256]

/-- The serialized location table.  The Python loop writes each 4-byte group of the
zero-initialized header in place; the groups tile bytes 0..4095 exactly. -/
def locTableBytes (locs : List (Nat × Nat)) : List Nat := (locs.map locEntryBytes).flatten

/-- The serialized timestamp table, tiling header bytes 4096..8191. -/
def tsTableBytes (ts : List Nat) : List Nat := (ts.map be4).flatten

/-- `_rebuild_region`: run the loop from sector 2 with empty tables, then emit the filled
8 KiB header followed by the payload area. -/
def rebuild_region (original : List Nat) (updated : Nat → Option (List Nat × Bool))
    (now : Nat) : Except RebuildError (List Nat) :=
  match rebuildLoop original updated (read_locations original) (read_timestamps original)
      now (List.range 1024) ⟨[], 2, List.replicate 1024 (0, 0), List.replicate 1024 0⟩ with
  | .error e => .error e
  | .ok st => .ok (locTableBytes st.locs ++ tsTableBytes st.ts ++ st.payload)

/-! ## Association-list helper lemmas -/

theorem cGet_cSet_ne (c : List (String × Nbt)) (k k' : String) (v : Nbt) (h : k ≠ k') :
    cGet (cSet c k v) k' = cGet c k' := by
  induction c with
  | nil => rfl
  | cons p rest ih =>
    obtain ⟨pk, pv⟩ := p
    by_cases hpk : pk = k
    · subst hpk
      simp [cSet, cGet, h]
    · simp [cSet, cGet, hpk]
      split <;> simp [ih]

theorem cGet_cSet_self (c : List (String × Nbt)) (k : String) (v : Nbt)
    (h : (cGet c k).isSome) : cGet (cSet c k v) k = some v := by
  induction c with
  | nil => simp [cGet] at h
  | cons p rest ih =>
    obtain ⟨pk, pv⟩ := p
    by_cases hpk : pk = k
    · subst hpk
      simp [cSet, cGet]
    · simp [cSet, cGet, hpk] at h ⊢
      exact ih h

theorem cSet_same (c : List (String × Nbt)) (k : String) (v : Nbt)
    (h : cGet c k = some v) : cSet c k v = c := by
  induction c with
  | nil => rfl
  | cons p rest ih =>
    obtain ⟨pk, pv⟩ := p
    by_cases hpk : pk = k
    · subst hpk
      simp [cGet] at h
      simp [cSet, h]
    · simp [cGet, hpk] at h
      simp [cSet, hpk, ih h]

theorem cSet_cSet (c : List (String × Nbt)) (k : String) (v v' : Nbt) :
    cSet (cSet c k v) k v' = cSet c k v' := by
  induction c with
  | nil => rfl
  | cons p rest ih =>
    obtain ⟨pk, pv⟩ := p
    by_cases hpk : pk = k <;> simp [cSet, hpk, ih]

/-! ## C1: the per-entry remap step -/

/-- The replacement id exactly as §4.3 of the spec words steps 3 and 4: look up the
normalized id in `M`; if absent, and the id starts with `terralith:` and the fallback is
set, use the fallback. -/
def replacementSpec (mapping : String → Option String) (fallback : Option String)
    (norm : String) : Option String :=
  match mapping norm with
  | some r => some r
  | none => if strStartsWith norm "terralith:" && fallback.isSome then fallback else none

/-- The spec's criterion for an entry being overwritten (and counted): it reads as a
string and its resolved replacement exists and differs from the normalized id. -/
def specEntryChanged (mapping : String → Option String) (fallback : Option String)
    (e : Nbt) : Bool :=
  match nbtStr e with
  | none => false
  | some s =>
    match replacementSpec mapping fallback (normalize_biome_name s) with
    | some r => decide (r ≠ normalize_biome_name s)
    | none => false

theorem remapEntry_eq_spec (mapping : String → Option String) (fallback : Option String)
    (hM : ∀ k r, mapping k = some r → r ≠ "")
    (hF : ∀ r, fallback = some r → r ≠ "")
    (e : Nbt) (s : String) (hs : nbtStr e = some s) :
    remapEntry mapping fallback e =
      match replacementSpec mapping fallback (normalize_biome_name s) with
      | some r =>
        if r = normalize_biome_name s then (e, false) else (.string r, true)
      | none => (e, false) := by
  simp only [remapEntry, hs, replacementSpec]
  cases hm : mapping (normalize_biome_name s) with
  | some r =>
    have hr : r ≠ "" := hM _ _ hm
    by_cases hrn : r = normalize_biome_name s
    · have hr' : ¬(normalize_biome_name s = "") := by rw [← hrn]; exact hr
      simp [optStrTruthy, hr, hr', hrn]
    · simp [optStrTruthy, hr, hrn]
  | none =>
    cases hf : fallback with
    | none => simp [optStrTruthy]
    | some rf =>
      have hrf : rf ≠ "" := hF _ hf
      by_cases hsw : strStartsWith (normalize_biome_name s) "terralith:"
      · by_cases hrn : rf = normalize_biome_name s
        · have hr' : ¬(normalize_biome_name s = "") := by rw [← hrn]; exact hrf
          simp [optStrTruthy, hrf, hsw, hrn, hr']
        · simp [optStrTruthy, hrf, hsw, hrn]
      · simp [optStrTruthy, hrf, hsw]

theorem remapPaletteLoop_cons (mapping : String → Option String) (fallback : Option String)
    (e : Nbt) (rest : List Nbt) :
    remapPaletteLoop mapping fallback (e :: rest) =
      ((remapEntry mapping fallback e).1 :: (remapPaletteLoop mapping fallback rest).1,
       (remapEntry mapping fallback e).2 || (remapPaletteLoop mapping fallback rest).2.1,
       (if (remapEntry mapping fallback e).2 then 1 else 0) +
         (remapPaletteLoop mapping fallback rest).2.2) := by
  simp only [remapPaletteLoop]

theorem remapPaletteLoop_flag (mapping : String → Option String) (fallback : Option String)
    (pal : List Nbt) :
    (remapPaletteLoop mapping fallback pal).2.1 = true ↔
      0 < (remapPaletteLoop mapping fallback pal).2.2 := by
  induction pal with
  | nil => simp [remapPaletteLoop]
  | cons e rest ih =>
    rw [remapPaletteLoop_cons]
    cases hb : (remapEntry mapping fallback e).2 <;> simp [ih]

theorem remapBranch1_flag (mapping : String → Option String) (fallback : Option String)
    (c : List (String × Nbt)) :
    (remapBranch1 mapping fallback c).2.1 = true ↔
      0 < (remapBranch1 mapping fallback c).2.2 := by
  unfold remapBranch1
  split
  · split
    · exact remapPaletteLoop_flag mapping fallback _
    · simp
  · simp

theorem remapBranch2_flag (mapping : String → Option String) (fallback : Option String)
    (c1 c2 : List (String × Nbt)) (b2 : Bool) (n2 : Nat)
    (h : remapBranch2 mapping fallback c1 = some (c2, b2, n2)) :
    b2 = true ↔ 0 < n2 := by
  unfold remapBranch2 at h
  repeat' split at h
  all_goals simp only [Option.some.injEq, Prod.mk.injEq, reduceCtorEq] at h
  all_goals obtain ⟨-, h2, h3⟩ := h
  all_goals subst h2
  all_goals subst h3
  all_goals simp [remapPaletteLoop_flag]

theorem remapSection_flag (mapping : String → Option String) (fallback : Option String)
    (s s' : Nbt) (ch : Bool) (n : Nat)
    (h : remapSection mapping fallback s = some (s', ch, n)) :
    ch = true ↔ 0 < n := by
  cases s with
  | compound c =>
    simp only [remapSection] at h
    split at h
    · exact absurd h (by simp)
    rename_i c2 b2 n2 hb2
    simp only [Option.some.injEq, Prod.mk.injEq] at h
    obtain ⟨-, h2, h3⟩ := h
    subst h2
    subst h3
    rw [Bool.or_eq_true, remapBranch1_flag, remapBranch2_flag mapping fallback _ _ _ _ hb2]
    omega
  | string s0 =>
    simp only [remapSection, Option.some.injEq, Prod.mk.injEq] at h
    simp [h.2.1.symm, h.2.2.symm]
  | int i =>
    simp only [remapSection, Option.some.injEq, Prod.mk.injEq] at h
    simp [h.2.1.symm, h.2.2.symm]
  | list xs =>
    simp only [remapSection, Option.some.injEq, Prod.mk.injEq] at h
    simp [h.2.1.symm, h.2.2.symm]
  | byteArray =>
    simp only [remapSection, Option.some.injEq, Prod.mk.injEq] at h
    simp [h.2.1.symm, h.2.2.symm]

theorem remapSectionsLoop_flag (mapping : String → Option String) (fallback : Option String)
    (yMin yMax : Option Int) (l : List Nbt) (l0 : List Nbt) (ch0 : Bool) (n0 : Nat)
    (h : remapSectionsLoop mapping fallback yMin yMax l = some (l0, ch0, n0)) :
    ch0 = true ↔ 0 < n0 := by
  induction l generalizing l0 ch0 n0 with
  | nil =>
    simp only [remapSectionsLoop, Option.some.injEq, Prod.mk.injEq] at h
    simp [← h.2.1, ← h.2.2]
  | cons s rest ih =>
    simp only [remapSectionsLoop] at h
    split at h
    · rcases hr : remapSectionsLoop mapping fallback yMin yMax rest with _ | res
      · rw [hr] at h
        exact absurd h (by simp)
      · obtain ⟨lr, chr, nr⟩ := res
        rw [hr] at h
        simp only [Option.map_some', Option.some.injEq, Prod.mk.injEq] at h
        obtain ⟨-, h2, h3⟩ := h
        subst h2
        subst h3
        exact ih _ _ _ hr
    · split at h
      · exact absurd h (by simp)
      rename_i s1 ch1 n1 hsec
      rcases hr : remapSectionsLoop mapping fallback yMin yMax rest with _ | res
      · rw [hr] at h
        exact absurd h (by simp)
      · obtain ⟨lr, chr, nr⟩ := res
        rw [hr] at h
        simp only [Option.map_some', Option.some.injEq, Prod.mk.injEq] at h
        obtain ⟨-, h2, h3⟩ := h
        subst h2
        subst h3
        have h1 := remapSection_flag mapping fallback s s1 ch1 n1 hsec
        have h2 := ih _ _ _ hr
        rw [Bool.or_eq_true, h1, h2]
        omega

theorem remapSectionsVal_flag (mapping : String → Option String) (fallback : Option String)
    (yMin yMax : Option Int) (v v' : Nbt) (ch : Bool) (n : Nat)
    (h : remapSectionsVal mapping fallback yMin yMax v = some (v', ch, n)) :
    ch = true ↔ 0 < n := by
  unfold remapSectionsVal at h
  split at h
  · exact absurd h (by simp)
  · simp only [Option.some.injEq, Prod.mk.injEq] at h
    simp [← h.2.1, ← h.2.2]
  · split at h
    · rcases hr : remapSectionsLoop mapping fallback yMin yMax _ with _ | res
      · rw [hr] at h
        exact absurd h (by simp)
      · obtain ⟨lr, chr, nr⟩ := res
        rw [hr] at h
        simp only [Option.map_some', Option.some.injEq, Prod.mk.injEq] at h
        obtain ⟨-, h2, h3⟩ := h
        subst h2
        subst h3
        exact remapSectionsLoop_flag mapping fallback yMin yMax _ _ _ _ hr
    · simp only [Option.some.injEq, Prod.mk.injEq] at h
      simp [← h.2.1, ← h.2.2]
    · simp only [Option.some.injEq, Prod.mk.injEq] at h
      simp [← h.2.1, ← h.2.2]
    · exact absurd h (by simp)

theorem remap_chunk_flag (mapping : String → Option String) (fallback : Option String)
    (yMin yMax : Option Int) (root root' : Nbt) (ch : Bool) (n : Nat)
    (h : remap_chunk_biome_palettes mapping fallback yMin yMax root = some (root', ch, n)) :
    ch = true ↔ 0 < n := by
  cases root with
  | compound c =>
    simp only [remap_chunk_biome_palettes] at h
    repeat' split at h
    all_goals
      first
      | (simp only [Option.some.injEq, Prod.mk.injEq] at h
         simp [← h.2.1, ← h.2.2])
      | (rename_i hval
         rcases hv : remapSectionsVal mapping fallback yMin yMax _ with _ | res
         · rw [hv] at h
           exact absurd h (by simp)
         · obtain ⟨vr, chr, nr⟩ := res
           rw [hv] at h
           simp only [Option.map_some', Option.some.injEq, Prod.mk.injEq] at h
           obtain ⟨-, h2, h3⟩ := h
           subst h2
           subst h3
           exact remapSectionsVal_flag mapping fallback yMin yMax _ _ _ _ hv)
  | string s0 =>
    simp only [remap_chunk_biome_palettes, Option.some.injEq, Prod.mk.injEq] at h
    simp [← h.2.1, ← h.2.2]
  | int i =>
    simp only [remap_chunk_biome_palettes, Option.some.injEq, Prod.mk.injEq] at h
    simp [← h.2.1, ← h.2.2]
  | list xs =>
    simp only [remap_chunk_biome_palettes, Option.some.injEq, Prod.mk.injEq] at h
    simp [← h.2.1, ← h.2.2]
  | byteArray =>
    simp only [remap_chunk_biome_palettes, Option.some.injEq, Prod.mk.injEq] at h
    simp [← h.2.1, ← h.2.2]

theorem remapEntry_flag_spec (mapping : String → Option String) (fallback : Option String)
    (hM : ∀ k r, mapping k = some r → r ≠ "")
    (hF : ∀ r, fallback = some r → r ≠ "") (e : Nbt) :
    (remapEntry mapping fallback e).2 = specEntryChanged mapping fallback e := by
  cases hs : nbtStr e with
  | none => simp only [remapEntry, specEntryChanged, hs]
  | some s =>
    rw [remapEntry_eq_spec mapping fallback hM hF e s hs]
    simp only [specEntryChanged, hs]
    cases hr : replacementSpec mapping fallback (normalize_biome_name s) with
    | none => simp
    | some r => by_cases hrn : r = normalize_biome_name s <;> simp [hrn]

theorem remapPaletteLoop_count (mapping : String → Option String) (fallback : Option String)
    (hM : ∀ k r, mapping k = some r → r ≠ "")
    (hF : ∀ r, fallback = some r → r ≠ "") (pal : List Nbt) :
    (remapPaletteLoop mapping fallback pal).2.2 =
      pal.countP (specEntryChanged mapping fallback) := by
  induction pal with
  | nil => simp [remapPaletteLoop]
  | cons e rest ih =>
    rw [remapPaletteLoop_cons]
    dsimp only
    rw [ih, remapEntry_flag_spec mapping fallback hM hF e, List.countP_cons]
    split <;> omega

/-- The property claimed of the remap step, stated over the embedded code: (1) an entry
that reads as a string is overwritten with its spec-resolved replacement (as an NBT
string) exactly when that replacement exists and differs from the normalized id, and is
otherwise untouched; (2) the palette-entry change count is the number of entries the spec
says change; (3) the chunk-level function returns the changed flag exactly when the entry
count is positive. -/
def remapStepSpecProp (mapping : String → Option String) (fallback : Option String) : Prop :=
  (∀ (e : Nbt) (s : String), nbtStr e = some s →
    remapEntry mapping fallback e =
      match replacementSpec mapping fallback (normalize_biome_name s) with
      | some r =>
        if r = normalize_biome_name s then (e, false) else (.string r, true)
      | none => (e, false)) ∧
  (∀ pal : List Nbt,
    (remapPaletteLoop mapping fallback pal).2.2 =
      pal.countP (specEntryChanged mapping fallback)) ∧
  (∀ (yMin yMax : Option Int) (root root' : Nbt) (ch : Bool) (n : Nat),
    remap_chunk_biome_palettes mapping fallback yMin yMax root = some (root', ch, n) →
      ch = decide (0 < n))

/-- C1: for every palette entry that reads as a string, the remap step first normalizes
it (`universal_minecraft:X` to `minecraft:X`, `universal_terralith:X` to `terralith:X`),
then looks the normalized id up in the mapping; if the lookup fails, the id starts with
`terralith:` and the fallback is set, the fallback is used; the entry is overwritten as
an NBT string, and counted as one palette-entry change, iff the resulting replacement
exists and differs from the normalized id; the chunk function returns the pair
(any entry changed, number of entries changed).  The hypotheses record the spec's data
model: mapping values and the fallback are `namespace:name` biome ids, hence nonempty
(the code tests Python truthiness where the spec says "exists" / "is set"). -/
theorem remap_step_follows_spec
    (mapping : String → Option String) (fallback : Option String)
    (hM : ∀ k r, mapping k = some r → r ≠ "")
    (hF : ∀ r, fallback = some r → r ≠ "") :
    remapStepSpecProp mapping fallback := by
  refine ⟨remapEntry_eq_spec mapping fallback hM hF,
    remapPaletteLoop_count mapping fallback hM hF, ?_⟩
  intro yMin yMax root root' ch n hr
  have hiff := remap_chunk_flag mapping fallback yMin yMax root root' ch n hr
  cases ch
  · have hn : n = 0 := by
      by_contra hc
      have hpos : 0 < n := Nat.pos_of_ne_zero hc
      rw [← hiff] at hpos
      exact absurd hpos (by simp)
    subst hn
    simp
  · have hpos : 0 < n := hiff.1 rfl
    simp [hpos]

/-- Witness for C1 at the default mapping's first row with fallback `minecraft:plains`. -/
theorem remap_step_follows_spec_witness :
    (∀ k r, (fun q => if q = "terralith:yellowstone" then some "minecraft:badlands"
        else none) k = some r → r ≠ "") ∧
    (∀ r : String, (some "minecraft:plains" : Option String) = some r → r ≠ "") ∧
    remapStepSpecProp
      (fun q => if q = "terralith:yellowstone" then some "minecraft:badlands" else none)
      (some "minecraft:plains") := by
  have h1 : ∀ k r, (fun q => if q = "terralith:yellowstone" then some "minecraft:badlands"
      else none) k = some r → r ≠ "" := by
    intro k r h
    by_cases hk : k = "terralith:yellowstone"
    · subst hk
      simp at h
      subst h
      decide
    · simp [hk] at h
  have h2 : ∀ r : String, (some "minecraft:plains" : Option String) = some r → r ≠ "" := by
    intro r h
    cases h
    decide
  exact ⟨h1, h2, remap_step_follows_spec _ _ h1 h2⟩

/-! ## C2: palette iteration across schema casings -/

/-- The iteration behaviour of `_iter_biome_palette_lists` over the schema shapes: the
three combinations the code supports yield the palette; a lowercase `biomes` container
carrying only `Palette` yields nothing; compound, string, packed-array and integer
values at the palette key, a missing palette key, a non-compound container, a missing
container, and a non-compound section are all ignored without error. -/
def iterCasesProp (pal : List Nbt) (s0 : String) (bc : List (String × Nbt)) (i : Int) :
    Prop :=
  iter_biome_palette_lists (.compound [("biomes", .compound [("palette", .list pal)])])
    = some [pal] ∧
  iter_biome_palette_lists (.compound [("Biomes", .compound [("palette", .list pal)])])
    = some [pal] ∧
  iter_biome_palette_lists (.compound [("Biomes", .compound [("Palette", .list pal)])])
    = some [pal] ∧
  iter_biome_palette_lists (.compound [("biomes", .compound [("Palette", .list pal)])])
    = some [] ∧
  iter_biome_palette_lists (.compound [("biomes", .compound [("palette", .compound bc)])])
    = some [] ∧
  iter_biome_palette_lists (.compound [("biomes", .compound [("palette", .string s0)])])
    = some [] ∧
  iter_biome_palette_lists (.compound [("biomes", .compound [("palette", .byteArray)])])
    = some [] ∧
  iter_biome_palette_lists (.compound [("biomes", .compound [("palette", .int i)])])
    = some [] ∧
  iter_biome_palette_lists (.compound [("biomes", .compound [])]) = some [] ∧
  iter_biome_palette_lists (.compound [("biomes", .string s0)]) = some [] ∧
  iter_biome_palette_lists (.compound []) = some [] ∧
  iter_biome_palette_lists (.string s0) = some []

/-- C2 counterexample: the claim says a `biomes` container carrying a `Palette` list is
yielded (all four casing combinations), but the code's `biomes` branch reads only the
lowercase `palette` key: nothing is yielded for this section. -/
theorem iter_biomes_uppercase_palette_not_yielded :
    iter_biome_palette_lists
      (.compound [("biomes", .compound
        [("Palette", .list [.string "minecraft:plains"])])]) = some [] := rfl

/-- C2 (amended): palette iteration yields the palette for `biomes`+`palette`,
`Biomes`+`palette` and `Biomes`+`Palette` (the palette being nonempty, since an empty
`palette` list under `Biomes` is Python-falsy and falls through to `Palette`), yields
nothing for `biomes`+`Palette`, and ignores non-sequence palette values and missing
fields without error. -/
theorem iter_biome_palette_lists_cases (pal : List Nbt) (hpal : pal ≠ []) (s0 : String)
    (bc : List (String × Nbt)) (i : Int) : iterCasesProp pal s0 bc i := by
  cases pal with
  | nil => exact absurd rfl hpal
  | cons p rest =>
    exact ⟨rfl, rfl, rfl, rfl, rfl, rfl, rfl, rfl, rfl, rfl, rfl, rfl⟩

/-- Witness for C2 at a one-entry palette. -/
theorem iter_biome_palette_lists_cases_witness :
    ([Nbt.string "minecraft:plains"] ≠ ([] : List Nbt)) ∧
    iterCasesProp [Nbt.string "minecraft:plains"] "x" [] 0 :=
  ⟨by simp, iter_biome_palette_lists_cases [Nbt.string "minecraft:plains"] (by simp) "x" [] 0⟩

/-! ## C9: the Y filter -/

theorem remap_chunk_singleton (mapping : String → Option String) (fallback : Option String)
    (yMin yMax : Option Int) (s : Nbt) :
    remap_chunk_biome_palettes mapping fallback yMin yMax
        (.compound [("sections", .list [s])]) =
      if sectionSkipped yMin yMax s then
        some (.compound [("sections", .list [s])], false, 0)
      else
        (remapSection mapping fallback s).map fun r =>
          (.compound [("sections", .list [r.1])], r.2.1, r.2.2) := by
  by_cases hsk : sectionSkipped yMin yMax s
  · simp [remap_chunk_biome_palettes, remapSectionsVal, remapSectionsLoop, cGet, cSet,
      nbtTruthy, hsk]
  · cases hsec : remapSection mapping fallback s with
    | none =>
      simp [remap_chunk_biome_palettes, remapSectionsVal, remapSectionsLoop, cGet, cSet,
        nbtTruthy, hsk, hsec]
    | some r =>
      obtain ⟨s', ch1, n1⟩ := r
      simp [remap_chunk_biome_palettes, remapSectionsVal, remapSectionsLoop, cGet, cSet,
        nbtTruthy, hsk, hsec]

theorem sectionSkipped_no_min (yMax : Option Int) (s : Nbt) :
    sectionSkipped none yMax s = false := by
  unfold sectionSkipped
  rcases section_y s with _ | sy <;> rcases yMax with _ | b <;> rfl

theorem sectionSkipped_no_max (yMin : Option Int) (s : Nbt) :
    sectionSkipped yMin none s = false := by
  unfold sectionSkipped
  rcases section_y s with _ | sy <;> rcases yMin with _ | a <;> rfl

theorem sectionSkipped_no_y (yMin yMax : Option Int) (s : Nbt) (h : section_y s = none) :
    sectionSkipped yMin yMax s = false := by
  unfold sectionSkipped
  rw [h]

theorem sectionSkipped_some_y (a b sy : Int) (s : Nbt) (h : section_y s = some sy) :
    sectionSkipped (some a) (some b) s =
      (decide (sy * 16 + 15 < a) || decide (sy * 16 > b)) := by
  unfold sectionSkipped
  rw [h]

/-- The Y-filter property: with both bounds given, a section with readable `Y` is
processed exactly when `[Y*16, Y*16+15]` meets `[y_min, y_max]` (a skipped section is
kept verbatim and contributes no change); a section without a readable `Y` is processed;
with either bound missing every section is processed. -/
def yFilterProp (mapping : String → Option String) (fallback : Option String)
    (a b : Int) (s : Nbt) : Prop :=
  (∀ sy : Int, section_y s = some sy → sy * 16 ≤ b ∧ a ≤ sy * 16 + 15 →
    remap_chunk_biome_palettes mapping fallback (some a) (some b)
        (.compound [("sections", .list [s])]) =
      remap_chunk_biome_palettes mapping fallback none none
        (.compound [("sections", .list [s])])) ∧
  (∀ sy : Int, section_y s = some sy → ¬(sy * 16 ≤ b ∧ a ≤ sy * 16 + 15) →
    remap_chunk_biome_palettes mapping fallback (some a) (some b)
        (.compound [("sections", .list [s])]) =
      some (.compound [("sections", .list [s])], false, 0)) ∧
  (section_y s = none →
    remap_chunk_biome_palettes mapping fallback (some a) (some b)
        (.compound [("sections", .list [s])]) =
      remap_chunk_biome_palettes mapping fallback none none
        (.compound [("sections", .list [s])])) ∧
  (∀ yMax' : Option Int,
    remap_chunk_biome_palettes mapping fallback none yMax'
        (.compound [("sections", .list [s])]) =
      remap_chunk_biome_palettes mapping fallback none none
        (.compound [("sections", .list [s])])) ∧
  (∀ yMin' : Option Int,
    remap_chunk_biome_palettes mapping fallback yMin' none
        (.compound [("sections", .list [s])]) =
      remap_chunk_biome_palettes mapping fallback none none
        (.compound [("sections", .list [s])]))

/-- C9: the Y filter of `_remap_chunk_biome_palettes`, stated on a one-section chunk.
`a ≤ b` records that the bounds reach the function already swapped into order, so the
code's non-exclusion test coincides with interval overlap. -/
theorem remap_section_y_filter (mapping : String → Option String) (fallback : Option String)
    (a b : Int) (s : Nbt) (hab : a ≤ b) : yFilterProp mapping fallback a b s := by
  refine ⟨?_, ?_, ?_, ?_, ?_⟩
  · intro sy hy hov
    rw [remap_chunk_singleton, remap_chunk_singleton, sectionSkipped_some_y a b sy s hy,
      sectionSkipped_no_min]
    have h1 : ¬(sy * 16 + 15 < a) := by omega
    have h2 : ¬(sy * 16 > b) := by omega
    simp [h1, h2]
  · intro sy hy hov
    rw [remap_chunk_singleton, sectionSkipped_some_y a b sy s hy]
    have : sy * 16 + 15 < a ∨ sy * 16 > b := by omega
    rcases this with h | h <;> simp [h]
  · intro hy
    rw [remap_chunk_singleton, remap_chunk_singleton,
      sectionSkipped_no_y (some a) (some b) s hy, sectionSkipped_no_min]
  · intro yMax'
    rw [remap_chunk_singleton, remap_chunk_singleton, sectionSkipped_no_min,
      sectionSkipped_no_min]
  · intro yMin'
    rw [remap_chunk_singleton, remap_chunk_singleton, sectionSkipped_no_max,
      sectionSkipped_no_min]

/-- Witness for C9: a section at `Y = 4` (world 64..79) against the bounds `0..100`. -/
theorem remap_section_y_filter_witness :
    ((0 : Int) ≤ 100) ∧
    yFilterProp (fun q => if q = "terralith:yellowstone" then some "minecraft:badlands"
        else none) none 0 100
      (.compound [("Y", .int 4),
        ("biomes", .compound [("palette", .list [.string "terralith:yellowstone"])])]) :=
  ⟨by decide, remap_section_y_filter _ _ 0 100 _ (by decide)⟩

/-! ## C5: idempotence -/

/-- A mapping/fallback pair is *stable* when every id it can write is itself left
unchanged by the entry step.  The built-in table satisfies this: its values are vanilla
`minecraft:` ids that are not keys and not `terralith:`-prefixed. -/
def remapStable (mapping : String → Option String) (fallback : Option String) : Prop :=
  (∀ k r, mapping k = some r → remapEntry mapping fallback (.string r) = (.string r, false)) ∧
  (∀ r, fallback = some r → remapEntry mapping fallback (.string r) = (.string r, false))

theorem remapEntry_cases (mapping : String → Option String) (fallback : Option String)
    (e : Nbt) :
    remapEntry mapping fallback e = (e, false) ∨
    ∃ r, remapEntry mapping fallback e = (.string r, true) ∧
      ((∃ k, mapping k = some r) ∨ fallback = some r) := by
  cases hs : nbtStr e with
  | none =>
    left
    unfold remapEntry
    rw [hs]
  | some raw =>
    have hred : remapEntry mapping fallback e =
        (match (if (!optStrTruthy (mapping (normalize_biome_name raw)) &&
              optStrTruthy fallback &&
              strStartsWith (normalize_biome_name raw) "terralith:") then fallback
            else mapping (normalize_biome_name raw)) with
          | some r =>
            if r ≠ "" ∧ r ≠ normalize_biome_name raw then (Nbt.string r, true) else (e, false)
          | none => (e, false)) := by
      unfold remapEntry
      rw [hs]
    rw [hred]
    by_cases hc : (!optStrTruthy (mapping (normalize_biome_name raw)) &&
        optStrTruthy fallback &&
        strStartsWith (normalize_biome_name raw) "terralith:") = true
    · rw [if_pos hc]
      cases hf : fallback with
      | none => left; rfl
      | some rf =>
        by_cases hif : rf ≠ "" ∧ rf ≠ normalize_biome_name raw
        · right
          refine ⟨rf, ?_, Or.inr rfl⟩
          show (if rf ≠ "" ∧ rf ≠ normalize_biome_name raw then (Nbt.string rf, true)
            else (e, false)) = (Nbt.string rf, true)
          rw [if_pos hif]
        · left
          show (if rf ≠ "" ∧ rf ≠ normalize_biome_name raw then (Nbt.string rf, true)
            else (e, false)) = (e, false)
          rw [if_neg hif]
    · rw [if_neg hc]
      cases hm : mapping (normalize_biome_name raw) with
      | none => left; rfl
      | some rm =>
        by_cases hif : rm ≠ "" ∧ rm ≠ normalize_biome_name raw
        · right
          refine ⟨rm, ?_, Or.inl ⟨normalize_biome_name raw, hm⟩⟩
          show (if rm ≠ "" ∧ rm ≠ normalize_biome_name raw then (Nbt.string rm, true)
            else (e, false)) = (Nbt.string rm, true)
          rw [if_pos hif]
        · left
          show (if rm ≠ "" ∧ rm ≠ normalize_biome_name raw then (Nbt.string rm, true)
            else (e, false)) = (e, false)
          rw [if_neg hif]

theorem remapEntry_idem (mapping : String → Option String) (fallback : Option String)
    (hst : remapStable mapping fallback) (e : Nbt) :
    remapEntry mapping fallback (remapEntry mapping fallback e).1 =
      ((remapEntry mapping fallback e).1, false) := by
  rcases remapEntry_cases mapping fallback e with hcase | ⟨r, hcase, hsrc⟩
  · rw [hcase]
    exact hcase
  · rw [hcase]
    rcases hsrc with ⟨k, hk⟩ | hf
    · exact hst.1 k r hk
    · exact hst.2 r hf

theorem remapPaletteLoop_idem (mapping : String → Option String) (fallback : Option String)
    (hst : remapStable mapping fallback) (pal : List Nbt) :
    remapPaletteLoop mapping fallback (remapPaletteLoop mapping fallback pal).1 =
      ((remapPaletteLoop mapping fallback pal).1, false, 0) := by
  induction pal with
  | nil => rfl
  | cons e rest ih =>
    rw [remapPaletteLoop_cons, remapPaletteLoop_cons,
      remapEntry_idem mapping fallback hst e, ih]
    simp

theorem remapPaletteLoop_length (mapping : String → Option String) (fallback : Option String)
    (pal : List Nbt) :
    (remapPaletteLoop mapping fallback pal).1.length = pal.length := by
  induction pal with
  | nil => rfl
  | cons e rest ih =>
    rw [remapPaletteLoop_cons]
    simp [ih]

theorem cSet_comm (c : List (String × Nbt)) (k k' : String) (v v' : Nbt) (h : k ≠ k') :
    cSet (cSet c k v) k' v' = cSet (cSet c k' v') k v := by
  induction c with
  | nil => rfl
  | cons p rest ih =>
    obtain ⟨pk, pv⟩ := p
    by_cases hpk : pk = k
    · subst hpk
      simp [cSet, h]
    · by_cases hpk' : pk = k'
      · subst hpk'
        simp [cSet, hpk, Ne.symm h]
      · simp [cSet, hpk, hpk', ih]

theorem remapBranch1_eq_of_get (mapping : String → Option String) (fallback : Option String)
    (c : List (String × Nbt)) (bc : List (String × Nbt)) (pal : List Nbt)
    (hb : cGet c "biomes" = some (.compound bc))
    (hp : cGet bc "palette" = some (.list pal)) :
    remapBranch1 mapping fallback c =
      (cSet c "biomes" (.compound (cSet bc "palette"
        (.list (remapPaletteLoop mapping fallback pal).1))),
       (remapPaletteLoop mapping fallback pal).2.1,
       (remapPaletteLoop mapping fallback pal).2.2) := by
  unfold remapBranch1
  simp only [hb, hp]

theorem remapBranch1_idem (mapping : String → Option String) (fallback : Option String)
    (hst : remapStable mapping fallback) (c : List (String × Nbt)) :
    remapBranch1 mapping fallback (remapBranch1 mapping fallback c).1 =
      ((remapBranch1 mapping fallback c).1, false, 0) := by
  rcases hb : cGet c "biomes" with _ | vb
  · have h1 : remapBranch1 mapping fallback c = (c, false, 0) := by
      unfold remapBranch1
      simp only [hb]
    rw [h1]
    exact h1
  · cases vb with
    | compound bc =>
      rcases hp : cGet bc "palette" with _ | vp
      · have h1 : remapBranch1 mapping fallback c = (c, false, 0) := by
          unfold remapBranch1
          simp only [hb, hp]
        rw [h1]
        exact h1
      · cases vp with
        | list pal =>
          rw [remapBranch1_eq_of_get mapping fallback c bc pal hb hp]
          have hb' : cGet (cSet c "biomes" (.compound (cSet bc "palette"
              (.list (remapPaletteLoop mapping fallback pal).1)))) "biomes" =
              some (.compound (cSet bc "palette"
                (.list (remapPaletteLoop mapping fallback pal).1))) :=
            cGet_cSet_self c "biomes" _ (by rw [hb]; rfl)
          have hp' : cGet (cSet bc "palette"
              (.list (remapPaletteLoop mapping fallback pal).1)) "palette" =
              some (.list (remapPaletteLoop mapping fallback pal).1) :=
            cGet_cSet_self bc "palette" _ (by rw [hp]; rfl)
          rw [remapBranch1_eq_of_get mapping fallback _ _ _ hb' hp',
            remapPaletteLoop_idem mapping fallback hst pal]
          rw [cSet_cSet, cSet_cSet]
        | string s0 =>
          have h1 : remapBranch1 mapping fallback c = (c, false, 0) := by
            unfold remapBranch1
            simp only [hb, hp]
          rw [h1]
          exact h1
        | int i =>
          have h1 : remapBranch1 mapping fallback c = (c, false, 0) := by
            unfold remapBranch1
            simp only [hb, hp]
          rw [h1]
          exact h1
        | compound bc2 =>
          have h1 : remapBranch1 mapping fallback c = (c, false, 0) := by
            unfold remapBranch1
            simp only [hb, hp]
          rw [h1]
          exact h1
        | byteArray =>
          have h1 : remapBranch1 mapping fallback c = (c, false, 0) := by
            unfold remapBranch1
            simp only [hb, hp]
          rw [h1]
          exact h1
    | string s0 =>
      have h1 : remapBranch1 mapping fallback c = (c, false, 0) := by
        unfold remapBranch1
        simp only [hb]
      rw [h1]
      exact h1
    | int i =>
      have h1 : remapBranch1 mapping fallback c = (c, false, 0) := by
        unfold remapBranch1
        simp only [hb]
      rw [h1]
      exact h1
    | list xs =>
      have h1 : remapBranch1 mapping fallback c = (c, false, 0) := by
        unfold remapBranch1
        simp only [hb]
      rw [h1]
      exact h1
    | byteArray =>
      have h1 : remapBranch1 mapping fallback c = (c, false, 0) := by
        unfold remapBranch1
        simp only [hb]
      rw [h1]
      exact h1

theorem remapBranch2_fix (mapping : String → Option String) (fallback : Option String)
    (c1 c2 : List (String × Nbt)) (b2 : Bool) (n2 : Nat)
    (h : remapBranch2 mapping fallback c1 = some (c2, b2, n2))
    (h1 : remapBranch2 mapping fallback c1 = some (c1, false, 0)) :
    remapBranch2 mapping fallback c2 = some (c2, false, 0) := by
  rw [h1] at h
  simp only [Option.some.injEq, Prod.mk.injEq] at h
  rw [← h.1]
  exact h1

theorem isEmpty_false_of_ne_nil {α : Type} (l : List α) (h : l ≠ []) :
    l.isEmpty = false := by
  cases l with
  | nil => exact absurd rfl h
  | cons a as => rfl

theorem remapBranch2_eq_lower (mapping : String → Option String) (fallback : Option String)
    (c1 : List (String × Nbt)) (bc : List (String × Nbt)) (pal : List Nbt)
    (hB : cGet c1 "Biomes" = some (.compound bc))
    (hp : cGet bc "palette" = some (.list pal)) (hne : pal ≠ []) :
    remapBranch2 mapping fallback c1 =
      some (cSet c1 "Biomes" (.compound (cSet bc "palette"
          (.list (remapPaletteLoop mapping fallback pal).1))),
        (remapPaletteLoop mapping fallback pal).2.1,
        (remapPaletteLoop mapping fallback pal).2.2) := by
  unfold remapBranch2
  simp only [hB, hp, nbtTruthy, isEmpty_false_of_ne_nil pal hne, Bool.not_false]

theorem remapBranch2_eq_upper (mapping : String → Option String) (fallback : Option String)
    (c1 : List (String × Nbt)) (bc : List (String × Nbt)) (pal : List Nbt)
    (hB : cGet c1 "Biomes" = some (.compound bc))
    (hsel : cGet bc "palette" = none ∨
      ∃ v, cGet bc "palette" = some v ∧ nbtTruthy v = some false)
    (hP : cGet bc "Palette" = some (.list pal)) :
    remapBranch2 mapping fallback c1 =
      some (cSet c1 "Biomes" (.compound (cSet bc "Palette"
          (.list (remapPaletteLoop mapping fallback pal).1))),
        (remapPaletteLoop mapping fallback pal).2.1,
        (remapPaletteLoop mapping fallback pal).2.2) := by
  unfold remapBranch2
  rcases hsel with hp | ⟨v, hp, hv⟩
  · simp only [hB, hp, hP]
  · simp only [hB, hp, hv, hP]

theorem remapBranch2_idem (mapping : String → Option String) (fallback : Option String)
    (hst : remapStable mapping fallback) (c1 c2 : List (String × Nbt)) (b2 : Bool) (n2 : Nat)
    (h : remapBranch2 mapping fallback c1 = some (c2, b2, n2)) :
    remapBranch2 mapping fallback c2 = some (c2, false, 0) := by
  rcases hB : cGet c1 "Biomes" with _ | vB
  · exact remapBranch2_fix mapping fallback c1 c2 b2 n2 h
      (by unfold remapBranch2; simp only [hB])
  · cases vB with
    | compound bc =>
      have hBs : (cGet c1 "Biomes").isSome := by rw [hB]; rfl
      rcases hp : cGet bc "palette" with _ | vp
      · -- `palette` missing: the `or` falls through to `Palette`
        rcases hP : cGet bc "Palette" with _ | vP
        · exact remapBranch2_fix mapping fallback c1 c2 b2 n2 h
            (by unfold remapBranch2; simp only [hB, hp, hP])
        · cases vP with
          | list pal =>
            rw [remapBranch2_eq_upper mapping fallback c1 bc pal hB (Or.inl hp) hP] at h
            simp only [Option.some.injEq, Prod.mk.injEq] at h
            rw [← h.1]
            have hB2 : cGet (cSet c1 "Biomes" (.compound (cSet bc "Palette"
                (.list (remapPaletteLoop mapping fallback pal).1)))) "Biomes" =
                some (.compound (cSet bc "Palette"
                  (.list (remapPaletteLoop mapping fallback pal).1))) :=
              cGet_cSet_self c1 "Biomes" _ hBs
            have hp2 : cGet (cSet bc "Palette"
                (.list (remapPaletteLoop mapping fallback pal).1)) "palette" = none := by
              rw [cGet_cSet_ne bc "Palette" "palette" _ (by decide), hp]
            have hP2 : cGet (cSet bc "Palette"
                (.list (remapPaletteLoop mapping fallback pal).1)) "Palette" =
                some (.list (remapPaletteLoop mapping fallback pal).1) :=
              cGet_cSet_self bc "Palette" _ (by rw [hP]; rfl)
            rw [remapBranch2_eq_upper mapping fallback _ _ _ hB2 (Or.inl hp2) hP2,
              remapPaletteLoop_idem mapping fallback hst pal]
            rw [cSet_cSet, cSet_cSet]
          | string s0 =>
            exact remapBranch2_fix mapping fallback c1 c2 b2 n2 h
              (by unfold remapBranch2; simp only [hB, hp, hP])
          | int i =>
            exact remapBranch2_fix mapping fallback c1 c2 b2 n2 h
              (by unfold remapBranch2; simp only [hB, hp, hP])
          | compound bcx =>
            exact remapBranch2_fix mapping fallback c1 c2 b2 n2 h
              (by unfold remapBranch2; simp only [hB, hp, hP])
          | byteArray =>
            exact remapBranch2_fix mapping fallback c1 c2 b2 n2 h
              (by unfold remapBranch2; simp only [hB, hp, hP])
      · rcases hv : nbtTruthy vp with _ | tb
        · -- packed-array truth test raises: the hypothesis is impossible
          exfalso
          unfold remapBranch2 at h
          simp only [hB, hp, hv] at h
          exact Option.noConfusion h
        · cases tb
          · -- falsy `palette` value: falls through to `Palette`, `palette` stays falsy
            rcases hP : cGet bc "Palette" with _ | vP
            · exact remapBranch2_fix mapping fallback c1 c2 b2 n2 h
                (by unfold remapBranch2; simp only [hB, hp, hv, hP])
            · cases vP with
              | list pal =>
                rw [remapBranch2_eq_upper mapping fallback c1 bc pal hB
                  (Or.inr ⟨vp, hp, hv⟩) hP] at h
                simp only [Option.some.injEq, Prod.mk.injEq] at h
                rw [← h.1]
                have hB2 : cGet (cSet c1 "Biomes" (.compound (cSet bc "Palette"
                    (.list (remapPaletteLoop mapping fallback pal).1)))) "Biomes" =
                    some (.compound (cSet bc "Palette"
                      (.list (remapPaletteLoop mapping fallback pal).1))) :=
                  cGet_cSet_self c1 "Biomes" _ hBs
                have hp2 : cGet (cSet bc "Palette"
                    (.list (remapPaletteLoop mapping fallback pal).1)) "palette" = some vp := by
                  rw [cGet_cSet_ne bc "Palette" "palette" _ (by decide), hp]
                have hP2 : cGet (cSet bc "Palette"
                    (.list (remapPaletteLoop mapping fallback pal).1)) "Palette" =
                    some (.list (remapPaletteLoop mapping fallback pal).1) :=
                  cGet_cSet_self bc "Palette" _ (by rw [hP]; rfl)
                rw [remapBranch2_eq_upper mapping fallback _ _ _ hB2 (Or.inr ⟨vp, hp2, hv⟩) hP2,
                  remapPaletteLoop_idem mapping fallback hst pal]
                rw [cSet_cSet, cSet_cSet]
              | string s0 =>
                exact remapBranch2_fix mapping fallback c1 c2 b2 n2 h
                  (by unfold remapBranch2; simp only [hB, hp, hv, hP])
              | int i =>
                exact remapBranch2_fix mapping fallback c1 c2 b2 n2 h
                  (by unfold remapBranch2; simp only [hB, hp, hv, hP])
              | compound bcx =>
                exact remapBranch2_fix mapping fallback c1 c2 b2 n2 h
                  (by unfold remapBranch2; simp only [hB, hp, hv, hP])
              | byteArray =>
                exact remapBranch2_fix mapping fallback c1 c2 b2 n2 h
                  (by unfold remapBranch2; simp only [hB, hp, hv, hP])
          · -- truthy `palette` value
            cases vp with
            | list pal =>
              have hne : pal ≠ [] := by
                intro hnil
                subst hnil
                simp [nbtTruthy] at hv
              rw [remapBranch2_eq_lower mapping fallback c1 bc pal hB hp hne] at h
              simp only [Option.some.injEq, Prod.mk.injEq] at h
              rw [← h.1]
              have hne' : (remapPaletteLoop mapping fallback pal).1 ≠ [] := by
                intro hnil
                have := remapPaletteLoop_length mapping fallback pal
                rw [hnil] at this
                cases pal with
                | nil => exact hne rfl
                | cons a as => simp at this
              have hB2 : cGet (cSet c1 "Biomes" (.compound (cSet bc "palette"
                  (.list (remapPaletteLoop mapping fallback pal).1)))) "Biomes" =
                  some (.compound (cSet bc "palette"
                    (.list (remapPaletteLoop mapping fallback pal).1))) :=
                cGet_cSet_self c1 "Biomes" _ hBs
              have hp2 : cGet (cSet bc "palette"
                  (.list (remapPaletteLoop mapping fallback pal).1)) "palette" =
                  some (.list (remapPaletteLoop mapping fallback pal).1) :=
                cGet_cSet_self bc "palette" _ (by rw [hp]; rfl)
              rw [remapBranch2_eq_lower mapping fallback _ _ _ hB2 hp2 hne',
                remapPaletteLoop_idem mapping fallback hst pal]
              rw [cSet_cSet, cSet_cSet]
            | string s0 =>
              exact remapBranch2_fix mapping fallback c1 c2 b2 n2 h
                (by unfold remapBranch2; simp only [hB, hp, hv])
            | int i =>
              exact remapBranch2_fix mapping fallback c1 c2 b2 n2 h
                (by unfold remapBranch2; simp only [hB, hp, hv])
            | compound bcx =>
              exact remapBranch2_fix mapping fallback c1 c2 b2 n2 h
                (by unfold remapBranch2; simp only [hB, hp, hv])
            | byteArray =>
              exact remapBranch2_fix mapping fallback c1 c2 b2 n2 h
                (by unfold remapBranch2; simp only [hB, hp, hv])
    | string s0 =>
      exact remapBranch2_fix mapping fallback c1 c2 b2 n2 h
        (by unfold remapBranch2; simp only [hB])
    | int i =>
      exact remapBranch2_fix mapping fallback c1 c2 b2 n2 h
        (by unfold remapBranch2; simp only [hB])
    | list xs =>
      exact remapBranch2_fix mapping fallback c1 c2 b2 n2 h
        (by unfold remapBranch2; simp only [hB])
    | byteArray =>
      exact remapBranch2_fix mapping fallback c1 c2 b2 n2 h
        (by unfold remapBranch2; simp only [hB])

theorem remapBranch1_cSet_Biomes (mapping : String → Option String) (fallback : Option String)
    (c : List (String × Nbt)) (X : Nbt) :
    remapBranch1 mapping fallback (cSet c "Biomes" X) =
      (cSet (remapBranch1 mapping fallback c).1 "Biomes" X,
        (remapBranch1 mapping fallback c).2) := by
  have hg : cGet (cSet c "Biomes" X) "biomes" = cGet c "biomes" :=
    cGet_cSet_ne c "Biomes" "biomes" X (by decide)
  rcases hb : cGet c "biomes" with _ | vb
  · have h1 : remapBranch1 mapping fallback c = (c, false, 0) := by
      unfold remapBranch1
      simp only [hb]
    rw [h1]
    unfold remapBranch1
    simp only [hg, hb]
  · cases vb with
    | compound bc =>
      rcases hp : cGet bc "palette" with _ | vp
      · have h1 : remapBranch1 mapping fallback c = (c, false, 0) := by
          unfold remapBranch1
          simp only [hb, hp]
        rw [h1]
        unfold remapBranch1
        simp only [hg, hb, hp]
      · cases vp with
        | list pal =>
          rw [remapBranch1_eq_of_get mapping fallback c bc pal hb hp]
          rw [remapBranch1_eq_of_get mapping fallback (cSet c "Biomes" X) bc pal
            (by rw [hg, hb]) hp]
          rw [cSet_comm c "Biomes" "biomes" X _ (by decide)]
        | string s0 =>
          have h1 : remapBranch1 mapping fallback c = (c, false, 0) := by
            unfold remapBranch1
            simp only [hb, hp]
          rw [h1]
          unfold remapBranch1
          simp only [hg, hb, hp]
        | int i =>
          have h1 : remapBranch1 mapping fallback c = (c, false, 0) := by
            unfold remapBranch1
            simp only [hb, hp]
          rw [h1]
          unfold remapBranch1
          simp only [hg, hb, hp]
        | compound bcx =>
          have h1 : remapBranch1 mapping fallback c = (c, false, 0) := by
            unfold remapBranch1
            simp only [hb, hp]
          rw [h1]
          unfold remapBranch1
          simp only [hg, hb, hp]
        | byteArray =>
          have h1 : remapBranch1 mapping fallback c = (c, false, 0) := by
            unfold remapBranch1
            simp only [hb, hp]
          rw [h1]
          unfold remapBranch1
          simp only [hg, hb, hp]
    | string s0 =>
      have h1 : remapBranch1 mapping fallback c = (c, false, 0) := by
        unfold remapBranch1
        simp only [hb]
      rw [h1]
      unfold remapBranch1
      simp only [hg, hb]
    | int i =>
      have h1 : remapBranch1 mapping fallback c = (c, false, 0) := by
        unfold remapBranch1
        simp only [hb]
      rw [h1]
      unfold remapBranch1
      simp only [hg, hb]
    | list xs =>
      have h1 : remapBranch1 mapping fallback c = (c, false, 0) := by
        unfold remapBranch1
        simp only [hb]
      rw [h1]
      unfold remapBranch1
      simp only [hg, hb]
    | byteArray =>
      have h1 : remapBranch1 mapping fallback c = (c, false, 0) := by
        unfold remapBranch1
        simp only [hb]
      rw [h1]
      unfold remapBranch1
      simp only [hg, hb]

theorem remapBranch2_shape (mapping : String → Option String) (fallback : Option String)
    (c1 c2 : List (String × Nbt)) (b2 : Bool) (n2 : Nat)
    (h : remapBranch2 mapping fallback c1 = some (c2, b2, n2)) :
    c2 = c1 ∨ ∃ X, c2 = cSet c1 "Biomes" X := by
  unfold remapBranch2 at h
  repeat' split at h
  all_goals simp only [Option.some.injEq, Prod.mk.injEq, reduceCtorEq] at h
  all_goals try (exact Or.inl h.1.symm)
  all_goals exact Or.inr ⟨_, h.1.symm⟩

theorem remapBranch1_shape (mapping : String → Option String) (fallback : Option String)
    (c : List (String × Nbt)) :
    (remapBranch1 mapping fallback c).1 = c ∨
    ∃ X, (remapBranch1 mapping fallback c).1 = cSet c "biomes" X := by
  unfold remapBranch1
  repeat' split
  all_goals first
    | exact Or.inl rfl
    | exact Or.inr ⟨_, rfl⟩

theorem remapSection_idem (mapping : String → Option String) (fallback : Option String)
    (hst : remapStable mapping fallback) (s s' : Nbt) (ch : Bool) (n : Nat)
    (h : remapSection mapping fallback s = some (s', ch, n)) :
    remapSection mapping fallback s' = some (s', false, 0) := by
  cases s with
  | compound c =>
    simp only [remapSection] at h
    split at h
    · exact absurd h (by simp)
    rename_i c2 b2 n2 hb2
    simp only [Option.some.injEq, Prod.mk.injEq] at h
    have hs' : s' = .compound c2 := h.1.symm
    subst hs'
    have hA : remapBranch1 mapping fallback c2 = (c2, false, 0) := by
      rcases remapBranch2_shape mapping fallback _ c2 b2 n2 hb2 with hsh | ⟨X, hsh⟩
      · rw [hsh]
        exact remapBranch1_idem mapping fallback hst c
      · rw [hsh, remapBranch1_cSet_Biomes mapping fallback _ X,
          remapBranch1_idem mapping fallback hst c]
    have hB2' : remapBranch2 mapping fallback c2 = some (c2, false, 0) :=
      remapBranch2_idem mapping fallback hst _ c2 b2 n2 hb2
    simp only [remapSection, hA, hB2']
    rfl
  | string s0 =>
    simp only [remapSection, Option.some.injEq, Prod.mk.injEq] at h
    rw [← h.1]
    rfl
  | int i =>
    simp only [remapSection, Option.some.injEq, Prod.mk.injEq] at h
    rw [← h.1]
    rfl
  | list xs =>
    simp only [remapSection, Option.some.injEq, Prod.mk.injEq] at h
    rw [← h.1]
    rfl
  | byteArray =>
    simp only [remapSection, Option.some.injEq, Prod.mk.injEq] at h
    rw [← h.1]
    rfl

theorem remapSection_section_y (mapping : String → Option String) (fallback : Option String)
    (s s' : Nbt) (ch : Bool) (n : Nat)
    (h : remapSection mapping fallback s = some (s', ch, n)) :
    section_y s' = section_y s := by
  cases s with
  | compound c =>
    simp only [remapSection] at h
    split at h
    · exact absurd h (by simp)
    rename_i c2 b2 n2 hb2
    simp only [Option.some.injEq, Prod.mk.injEq] at h
    have hs' : s' = .compound c2 := h.1.symm
    subst hs'
    have hY1 : cGet (remapBranch1 mapping fallback c).1 "Y" = cGet c "Y" := by
      rcases remapBranch1_shape mapping fallback c with hsh | ⟨X, hsh⟩
      · rw [hsh]
      · rw [hsh, cGet_cSet_ne c "biomes" "Y" X (by decide)]
    have hY2 : cGet c2 "Y" = cGet c "Y" := by
      rcases remapBranch2_shape mapping fallback _ c2 b2 n2 hb2 with hsh | ⟨X, hsh⟩
      · rw [hsh, hY1]
      · rw [hsh, cGet_cSet_ne _ "Biomes" "Y" X (by decide), hY1]
    simp only [section_y, hY2]
  | string s0 =>
    simp only [remapSection, Option.some.injEq, Prod.mk.injEq] at h
    rw [← h.1]
  | int i =>
    simp only [remapSection, Option.some.injEq, Prod.mk.injEq] at h
    rw [← h.1]
  | list xs =>
    simp only [remapSection, Option.some.injEq, Prod.mk.injEq] at h
    rw [← h.1]
  | byteArray =>
    simp only [remapSection, Option.some.injEq, Prod.mk.injEq] at h
    rw [← h.1]

theorem sectionSkipped_congr (yMin yMax : Option Int) (s s' : Nbt)
    (h : section_y s' = section_y s) :
    sectionSkipped yMin yMax s' = sectionSkipped yMin yMax s := by
  unfold sectionSkipped
  rw [h]

theorem remapSectionsLoop_idem (mapping : String → Option String) (fallback : Option String)
    (hst : remapStable mapping fallback) (yMin yMax : Option Int) (l l0 : List Nbt)
    (ch0 : Bool) (n0 : Nat)
    (h : remapSectionsLoop mapping fallback yMin yMax l = some (l0, ch0, n0)) :
    remapSectionsLoop mapping fallback yMin yMax l0 = some (l0, false, 0) := by
  induction l generalizing l0 ch0 n0 with
  | nil =>
    simp only [remapSectionsLoop, Option.some.injEq, Prod.mk.injEq] at h
    rw [← h.1]
    rfl
  | cons s rest ih =>
    simp only [remapSectionsLoop] at h
    split at h
    · rename_i hsk
      rcases hr : remapSectionsLoop mapping fallback yMin yMax rest with _ | res
      · rw [hr] at h
        exact absurd h (by simp)
      · obtain ⟨lr, chr, nr⟩ := res
        rw [hr] at h
        simp only [Option.map_some', Option.some.injEq, Prod.mk.injEq] at h
        rw [← h.1]
        simp only [remapSectionsLoop, hsk, if_pos, ih lr chr nr hr, Option.map_some']
    · rename_i hsk
      split at h
      · exact absurd h (by simp)
      rename_i s1 ch1 n1 hsec
      rcases hr : remapSectionsLoop mapping fallback yMin yMax rest with _ | res
      · rw [hr] at h
        exact absurd h (by simp)
      · obtain ⟨lr, chr, nr⟩ := res
        rw [hr] at h
        simp only [Option.map_some', Option.some.injEq, Prod.mk.injEq] at h
        rw [← h.1]
        have hsk1 : sectionSkipped yMin yMax s1 = false := by
          rw [sectionSkipped_congr yMin yMax s s1
            (remapSection_section_y mapping fallback s s1 ch1 n1 hsec)]
          exact Bool.of_not_eq_true hsk
        simp only [remapSectionsLoop, hsk1, Bool.false_eq_true, if_false,
          remapSection_idem mapping fallback hst s s1 ch1 n1 hsec,
          ih lr chr nr hr, Option.map_some']
        rfl

theorem remapSectionsLoop_length (mapping : String → Option String) (fallback : Option String)
    (yMin yMax : Option Int) (l l0 : List Nbt) (ch0 : Bool) (n0 : Nat)
    (h : remapSectionsLoop mapping fallback yMin yMax l = some (l0, ch0, n0)) :
    l0.length = l.length := by
  induction l generalizing l0 ch0 n0 with
  | nil =>
    simp only [remapSectionsLoop, Option.some.injEq, Prod.mk.injEq] at h
    rw [← h.1]
  | cons s rest ih =>
    simp only [remapSectionsLoop] at h
    split at h
    · rcases hr : remapSectionsLoop mapping fallback yMin yMax rest with _ | res
      · rw [hr] at h
        exact absurd h (by simp)
      · obtain ⟨lr, chr, nr⟩ := res
        rw [hr] at h
        simp only [Option.map_some', Option.some.injEq, Prod.mk.injEq] at h
        rw [← h.1]
        simp [ih lr chr nr hr]
    · split at h
      · exact absurd h (by simp)
      rename_i s1 ch1 n1 hsec
      rcases hr : remapSectionsLoop mapping fallback yMin yMax rest with _ | res
      · rw [hr] at h
        exact absurd h (by simp)
      · obtain ⟨lr, chr, nr⟩ := res
        rw [hr] at h
        simp only [Option.map_some', Option.some.injEq, Prod.mk.injEq] at h
        rw [← h.1]
        simp [ih lr chr nr hr]

theorem remapSectionsVal_idem (mapping : String → Option String) (fallback : Option String)
    (hst : remapStable mapping fallback) (yMin yMax : Option Int) (v v' : Nbt)
    (ch : Bool) (n : Nat)
    (h : remapSectionsVal mapping fallback yMin yMax v = some (v', ch, n)) :
    remapSectionsVal mapping fallback yMin yMax v' = some (v', false, 0) := by
  cases v with
  | list l =>
    rcases hl : l with _ | ⟨s, rest⟩
    · subst hl
      simp only [remapSectionsVal, nbtTruthy, List.isEmpty_nil, Bool.not_true,
        Option.some.injEq, Prod.mk.injEq] at h
      rw [← h.1]
      rfl
    · subst hl
      simp only [remapSectionsVal, nbtTruthy, List.isEmpty_cons, Bool.not_false] at h
      rcases hr : remapSectionsLoop mapping fallback yMin yMax (s :: rest) with _ | res
      · rw [hr] at h
        exact absurd h (by simp)
      · obtain ⟨lr, chr, nr⟩ := res
        rw [hr] at h
        simp only [Option.map_some', Option.some.injEq, Prod.mk.injEq] at h
        rw [← h.1]
        have hlen : lr.length = (s :: rest).length :=
          remapSectionsLoop_length mapping fallback yMin yMax _ lr chr nr hr
        rcases hlr : lr with _ | ⟨s2, rest2⟩
        · rw [hlr] at hlen
          simp at hlen
        · rw [← hlr]
          have hemp : lr.isEmpty = false := isEmpty_false_of_ne_nil lr (by
            rw [hlr]
            simp)
          simp only [remapSectionsVal, nbtTruthy, hemp, Bool.not_false,
            remapSectionsLoop_idem mapping fallback hst yMin yMax _ lr chr nr hr,
            Option.map_some']
  | string s0 =>
    by_cases hs : s0 = ""
    · subst hs
      have h0 : remapSectionsVal mapping fallback yMin yMax (.string "") =
          some (.string "", false, 0) := rfl
      rw [h0] at h
      simp only [Option.some.injEq, Prod.mk.injEq] at h
      rw [← h.1]
      exact h0
    · have ht : nbtTruthy (.string s0) = some true := by simp [nbtTruthy, hs]
      have h0 : remapSectionsVal mapping fallback yMin yMax (.string s0) =
          some (.string s0, false, 0) := by
        unfold remapSectionsVal
        rw [ht]
      rw [h0] at h
      simp only [Option.some.injEq, Prod.mk.injEq] at h
      rw [← h.1]
      exact h0
  | int i =>
    by_cases hi : i = 0
    · subst hi
      have h0 : remapSectionsVal mapping fallback yMin yMax (.int 0) =
          some (.int 0, false, 0) := rfl
      rw [h0] at h
      simp only [Option.some.injEq, Prod.mk.injEq] at h
      rw [← h.1]
      exact h0
    · have ht : nbtTruthy (.int i) = some true := by simp [nbtTruthy, hi]
      have h0 : remapSectionsVal mapping fallback yMin yMax (.int i) = none := by
        unfold remapSectionsVal
        rw [ht]
      rw [h0] at h
      exact absurd h (by simp)
  | compound c =>
    rcases hc : c with _ | ⟨p, rest⟩
    · subst hc
      simp only [remapSectionsVal, nbtTruthy, List.isEmpty_nil, Bool.not_true,
        Option.some.injEq, Prod.mk.injEq] at h
      rw [← h.1]
      rfl
    · subst hc
      simp only [remapSectionsVal, nbtTruthy, List.isEmpty_cons, Bool.not_false,
        Option.some.injEq, Prod.mk.injEq] at h
      rw [← h.1]
      rfl
  | byteArray =>
    simp only [remapSectionsVal, nbtTruthy] at h
    exact absurd h (by simp)

/-- C5 (amended): a second application of the palette remap changes nothing — returning
the same root with flag `false` and zero entries changed — provided the mapping/fallback
pair is stable (every id it can write is left unchanged by the entry step).  The built-in
Terralith→vanilla table is stable: its values are vanilla `minecraft:` ids that are
neither mapping keys nor `terralith:`-prefixed.  For an arbitrary mapping the claim is
false (see the counterexample). -/
theorem remap_chunk_idem (mapping : String → Option String) (fallback : Option String)
    (hst : remapStable mapping fallback) (yMin yMax : Option Int) (root root' : Nbt)
    (ch : Bool) (n : Nat)
    (h : remap_chunk_biome_palettes mapping fallback yMin yMax root = some (root', ch, n)) :
    remap_chunk_biome_palettes mapping fallback yMin yMax root' = some (root', false, 0) := by
  cases root with
  | compound c =>
    rcases h1 : cGet c "sections" with _ | v1
    · rcases h2 : cGet c "Sections" with _ | v2
      · rcases h3 : cGet c "Level" with _ | v3
        · -- no sections anywhere: unchanged
          simp only [remap_chunk_biome_palettes, h1, h2, h3,
            Option.some.injEq, Prod.mk.injEq] at h
          rw [← h.1]
          simp only [remap_chunk_biome_palettes, h1, h2, h3]
        · cases v3 with
          | compound lc =>
            rcases h4 : cGet lc "sections" with _ | v4
            · rcases h5 : cGet lc "Sections" with _ | v5
              · simp only [remap_chunk_biome_palettes, h1, h2, h3, h4, h5,
                  Option.some.injEq, Prod.mk.injEq] at h
                rw [← h.1]
                simp only [remap_chunk_biome_palettes, h1, h2, h3, h4, h5]
              · -- Level.Sections path
                simp only [remap_chunk_biome_palettes, h1, h2, h3, h4, h5] at h
                rcases hv : remapSectionsVal mapping fallback yMin yMax v5 with _ | res
                · rw [hv] at h
                  exact absurd h (by simp)
                · obtain ⟨v5', chv, nv⟩ := res
                  rw [hv] at h
                  simp only [Option.map_some', Option.some.injEq, Prod.mk.injEq] at h
                  rw [← h.1]
                  have g1 : cGet (cSet c "Level"
                      (.compound (cSet lc "Sections" v5'))) "sections" = none := by
                    rw [cGet_cSet_ne c "Level" "sections" _ (by decide), h1]
                  have g2 : cGet (cSet c "Level"
                      (.compound (cSet lc "Sections" v5'))) "Sections" = none := by
                    rw [cGet_cSet_ne c "Level" "Sections" _ (by decide), h2]
                  have g3 : cGet (cSet c "Level"
                      (.compound (cSet lc "Sections" v5'))) "Level" =
                      some (.compound (cSet lc "Sections" v5')) :=
                    cGet_cSet_self c "Level" _ (by rw [h3]; rfl)
                  have g4 : cGet (cSet lc "Sections" v5') "sections" = none := by
                    rw [cGet_cSet_ne lc "Sections" "sections" _ (by decide), h4]
                  have g5 : cGet (cSet lc "Sections" v5') "Sections" = some v5' :=
                    cGet_cSet_self lc "Sections" _ (by rw [h5]; rfl)
                  simp only [remap_chunk_biome_palettes, g1, g2, g3, g4, g5,
                    remapSectionsVal_idem mapping fallback hst yMin yMax v5 v5' chv nv hv,
                    Option.map_some', cSet_cSet]
            · -- Level.sections path
              simp only [remap_chunk_biome_palettes, h1, h2, h3, h4] at h
              rcases hv : remapSectionsVal mapping fallback yMin yMax v4 with _ | res
              · rw [hv] at h
                exact absurd h (by simp)
              · obtain ⟨v4', chv, nv⟩ := res
                rw [hv] at h
                simp only [Option.map_some', Option.some.injEq, Prod.mk.injEq] at h
                rw [← h.1]
                have g1 : cGet (cSet c "Level"
                    (.compound (cSet lc "sections" v4'))) "sections" = none := by
                  rw [cGet_cSet_ne c "Level" "sections" _ (by decide), h1]
                have g2 : cGet (cSet c "Level"
                    (.compound (cSet lc "sections" v4'))) "Sections" = none := by
                  rw [cGet_cSet_ne c "Level" "Sections" _ (by decide), h2]
                have g3 : cGet (cSet c "Level"
                    (.compound (cSet lc "sections" v4'))) "Level" =
                    some (.compound (cSet lc "sections" v4')) :=
                  cGet_cSet_self c "Level" _ (by rw [h3]; rfl)
                have g4 : cGet (cSet lc "sections" v4') "sections" = some v4' :=
                  cGet_cSet_self lc "sections" _ (by rw [h4]; rfl)
                simp only [remap_chunk_biome_palettes, g1, g2, g3, g4,
                  remapSectionsVal_idem mapping fallback hst yMin yMax v4 v4' chv nv hv,
                  Option.map_some', cSet_cSet]
          | string s0 =>
            simp only [remap_chunk_biome_palettes, h1, h2, h3,
              Option.some.injEq, Prod.mk.injEq] at h
            rw [← h.1]
            simp only [remap_chunk_biome_palettes, h1, h2, h3]
          | int i =>
            simp only [remap_chunk_biome_palettes, h1, h2, h3,
              Option.some.injEq, Prod.mk.injEq] at h
            rw [← h.1]
            simp only [remap_chunk_biome_palettes, h1, h2, h3]
          | list xs =>
            simp only [remap_chunk_biome_palettes, h1, h2, h3,
              Option.some.injEq, Prod.mk.injEq] at h
            rw [← h.1]
            simp only [remap_chunk_biome_palettes, h1, h2, h3]
          | byteArray =>
            simp only [remap_chunk_biome_palettes, h1, h2, h3,
              Option.some.injEq, Prod.mk.injEq] at h
            rw [← h.1]
            simp only [remap_chunk_biome_palettes, h1, h2, h3]
      · -- root-level Sections path
        simp only [remap_chunk_biome_palettes, h1, h2] at h
        rcases hv : remapSectionsVal mapping fallback yMin yMax v2 with _ | res
        · rw [hv] at h
          exact absurd h (by simp)
        · obtain ⟨v2', chv, nv⟩ := res
          rw [hv] at h
          simp only [Option.map_some', Option.some.injEq, Prod.mk.injEq] at h
          rw [← h.1]
          have g1 : cGet (cSet c "Sections" v2') "sections" = none := by
            rw [cGet_cSet_ne c "Sections" "sections" _ (by decide), h1]
          have g2 : cGet (cSet c "Sections" v2') "Sections" = some v2' :=
            cGet_cSet_self c "Sections" _ (by rw [h2]; rfl)
          simp only [remap_chunk_biome_palettes, g1, g2,
            remapSectionsVal_idem mapping fallback hst yMin yMax v2 v2' chv nv hv,
            Option.map_some', cSet_cSet]
    · -- root-level sections path
      simp only [remap_chunk_biome_palettes, h1] at h
      rcases hv : remapSectionsVal mapping fallback yMin yMax v1 with _ | res
      · rw [hv] at h
        exact absurd h (by simp)
      · obtain ⟨v1', chv, nv⟩ := res
        rw [hv] at h
        simp only [Option.map_some', Option.some.injEq, Prod.mk.injEq] at h
        rw [← h.1]
        have g1 : cGet (cSet c "sections" v1') "sections" = some v1' :=
          cGet_cSet_self c "sections" _ (by rw [h1]; rfl)
        simp only [remap_chunk_biome_palettes, g1,
          remapSectionsVal_idem mapping fallback hst yMin yMax v1 v1' chv nv hv,
          Option.map_some', cSet_cSet]
  | string s0 =>
    simp only [remap_chunk_biome_palettes, Option.some.injEq, Prod.mk.injEq] at h
    rw [← h.1]
    rfl
  | int i =>
    simp only [remap_chunk_biome_palettes, Option.some.injEq, Prod.mk.injEq] at h
    rw [← h.1]
    rfl
  | list xs =>
    simp only [remap_chunk_biome_palettes, Option.some.injEq, Prod.mk.injEq] at h
    rw [← h.1]
    rfl
  | byteArray =>
    simp only [remap_chunk_biome_palettes, Option.some.injEq, Prod.mk.injEq] at h
    rw [← h.1]
    rfl

/-- C5 counterexample: with the two-cycle mapping `plains ↔ forest` the first pass
changes the single palette entry and the second pass changes it again (swapping it back):
the second pass does not change zero palette entries, so idempotence fails for arbitrary
mappings. -/
theorem remap_second_pass_changes_entry :
    remap_chunk_biome_palettes
        (fun q => if q = "minecraft:plains" then some "minecraft:forest"
          else if q = "minecraft:forest" then some "minecraft:plains" else none)
        none none none
        (.compound [("sections", .list [.compound [("biomes",
          .compound [("palette", .list [.string "minecraft:plains"])])]])]) =
      some (.compound [("sections", .list [.compound [("biomes",
        .compound [("palette", .list [.string "minecraft:forest"])])]])], true, 1) ∧
    remap_chunk_biome_palettes
        (fun q => if q = "minecraft:plains" then some "minecraft:forest"
          else if q = "minecraft:forest" then some "minecraft:plains" else none)
        none none none
        (.compound [("sections", .list [.compound [("biomes",
          .compound [("palette", .list [.string "minecraft:forest"])])]])]) =
      some (.compound [("sections", .list [.compound [("biomes",
        .compound [("palette", .list [.string "minecraft:plains"])])]])], true, 1) :=
  ⟨rfl, rfl⟩

/-- Witness for C5 at the default mapping's first row: the first pass rewrites
`terralith:yellowstone` to `minecraft:badlands`, the second pass reports no change. -/
theorem remap_chunk_idem_witness :
    remapStable (fun q => if q = "terralith:yellowstone" then some "minecraft:badlands"
      else none) none ∧
    remap_chunk_biome_palettes
        (fun q => if q = "terralith:yellowstone" then some "minecraft:badlands" else none)
        none none none
        (.compound [("sections", .list [.compound [("biomes",
          .compound [("palette", .list [.string "terralith:yellowstone"])])]])]) =
      some (.compound [("sections", .list [.compound [("biomes",
        .compound [("palette", .list [.string "minecraft:badlands"])])]])], true, 1) ∧
    remap_chunk_biome_palettes
        (fun q => if q = "terralith:yellowstone" then some "minecraft:badlands" else none)
        none none none
        (.compound [("sections", .list [.compound [("biomes",
          .compound [("palette", .list [.string "minecraft:badlands"])])]])]) =
      some (.compound [("sections", .list [.compound [("biomes",
        .compound [("palette", .list [.string "minecraft:badlands"])])]])], false, 0) := by
  have hst : remapStable (fun q => if q = "terralith:yellowstone"
      then some "minecraft:badlands" else none) none := by
    constructor
    · intro k r h
      by_cases hk : k = "terralith:yellowstone"
      · subst hk
        simp at h
        subst h
        rfl
      · simp [hk] at h
    · intro r h
      exact Option.noConfusion h
  have h1 : remap_chunk_biome_palettes
      (fun q => if q = "terralith:yellowstone" then some "minecraft:badlands" else none)
      none none none
      (.compound [("sections", .list [.compound [("biomes",
        .compound [("palette", .list [.string "terralith:yellowstone"])])]])]) =
      some (.compound [("sections", .list [.compound [("biomes",
        .compound [("palette", .list [.string "minecraft:badlands"])])]])], true, 1) := rfl
  exact ⟨hst, h1, remap_chunk_idem _ none hst none none _ _ true 1 h1⟩

/-! ## C8: the chunk envelope decoder -/

/-- C8 counterexample: a blob whose declared length `L` is 0 with a 2-byte payload.  The
claim (and spec) say the payload is truncated to `L − 1` bytes when `L − 1 ≤
len(payload)`; the code evaluates `payload[: L - 1]` which for `L = 0` is the Python
negative-index slice `payload[:-1]`, keeping `len(payload) − 1 = 1` byte — not `L − 1`
bytes (`0` under truncated subtraction, and no number of bytes at all read literally). -/
theorem decompress_zero_declared_length :
    decompress_chunk_nbt (fun _ => none) (fun _ => none) [0, 0, 0, 0, 3, 65, 66] =
      .ok [65] ∧
    ([65] : List Nat) ≠ List.take (0 - 1) [65, 66] := by
  constructor
  · rfl
  · simp

/-- The decoder's behaviour as the amended claim states it, for blobs of at least 5
bytes: writing `L` for the declared length, `c` for the tag byte and `payload` for the
bytes after the tag — the call fails with a length mismatch exactly when
`L > len(payload) + 1`; otherwise the payload is truncated to `L − 1` bytes when `L ≥ 1`
(a no-op when `L = len(payload) + 1`) and to `len(payload) − 1` bytes when `L = 0` (the
negative-slice artifact); the result is then gunzipped for `c = 1`, inflated for `c = 2`,
returned as-is for `c = 3`, and fails with an unknown-compression error naming `c`
otherwise. -/
def decompressSpecProp (gunzip zunzip : List Nat → Option (List Nat))
    (blob : List Nat) : Prop :=
  decompress_chunk_nbt gunzip zunzip blob =
    (let L := beBytesToNat (blob.take 4)
     let c := blob.getD 4 0
     let payload := blob.drop 5
     if payload.length + 1 < L then .error .lengthMismatch
     else
       let p := payload.take (if L = 0 then payload.length - 1 else L - 1)
       if c = 1 then
         match gunzip p with
         | some r => .ok r
         | none => .error .gzipError
       else if c = 2 then
         match zunzip p with
         | some r => .ok r
         | none => .error .zlibError
       else if c = 3 then .ok p
       else .error (.unknownCompression c))

theorem fixedPayload_eq (payload : List Nat) (L : Nat) :
    (if L ≠ payload.length + 1 then
       (if (L : Int) - 1 ≤ (payload.length : Int) then
          Except.ok (pySliceTo payload ((L : Int) - 1))
        else Except.error DecompressError.lengthMismatch)
     else Except.ok payload) =
    (if payload.length + 1 < L then
       (Except.error DecompressError.lengthMismatch : Except DecompressError (List Nat))
     else Except.ok (payload.take (if L = 0 then payload.length - 1 else L - 1))) := by
  rcases Nat.eq_zero_or_pos L with h0 | hpos
  · subst h0
    rw [if_pos (by omega), if_pos (by push_cast; omega), if_neg (by omega), if_pos rfl]
    unfold pySliceTo
    rw [if_pos (by norm_num)]
    norm_num
  · by_cases hlt : payload.length + 1 < L
    · rw [if_pos (by omega), if_neg (by push_cast; omega), if_pos hlt]
    · by_cases heq : L = payload.length + 1
      · rw [if_neg (fun hc => hc heq), if_neg hlt, if_neg (by omega)]
        have hL1 : L - 1 = payload.length := by omega
        rw [hL1, List.take_length]
      · rw [if_pos heq, if_pos (by push_cast; omega), if_neg hlt, if_neg (by omega)]
        unfold pySliceTo
        rw [if_neg (by omega : ¬((L : Int) - 1 < 0))]
        have : ((L : Int) - 1).toNat = L - 1 := by omega
        rw [this]

/-- C8 (amended): see `decompressSpecProp`. -/
theorem decompress_chunk_nbt_spec (gunzip zunzip : List Nat → Option (List Nat))
    (blob : List Nat) (h5 : 5 ≤ blob.length) :
    decompressSpecProp gunzip zunzip blob := by
  unfold decompressSpecProp
  simp only [decompress_chunk_nbt]
  rw [if_neg (by omega : ¬ blob.length < 5)]
  rw [fixedPayload_eq (blob.drop 5) (beBytesToNat (blob.take 4))]
  by_cases hlt : (blob.drop 5).length + 1 < beBytesToNat (blob.take 4)
  · rw [if_pos hlt]
    rw [if_pos hlt]
  · rw [if_neg hlt]
    rw [if_neg hlt]

/-- Witness for C8 at a well-formed identity-compressed blob. -/
theorem decompress_chunk_nbt_spec_witness :
    5 ≤ ([0, 0, 0, 2, 3, 9] : List Nat).length ∧
    decompressSpecProp (fun _ => none) (fun _ => none) [0, 0, 0, 2, 3, 9] :=
  ⟨by decide, decompress_chunk_nbt_spec (fun _ => none) (fun _ => none) [0, 0, 0, 2, 3, 9]
    (by decide)⟩

/-! ## C6: compression tag preservation -/

theorem getD_default_irrel {α : Type} (l : List α) (i : Nat) (d d' : α)
    (h : i < l.length) : l.getD i d = l.getD i d' := by
  induction l generalizing i with
  | nil => simp at h
  | cons a as ih =>
    cases i with
    | zero => rfl
    | succ j =>
      simp only [List.getD_cons_succ]
      exact ih j (by simpa using h)

theorem decompress_ok_comp (gunzip zunzip : List Nat → Option (List Nat))
    (blob raw : List Nat) (h : decompress_chunk_nbt gunzip zunzip blob = .ok raw) :
    5 ≤ blob.length ∧
      (blob.getD 4 0 = 1 ∨ blob.getD 4 0 = 2 ∨ blob.getD 4 0 = 3) := by
  simp only [decompress_chunk_nbt] at h
  by_cases h5 : blob.length < 5
  · rw [if_pos h5] at h
    exact absurd h (by simp)
  · rw [if_neg h5] at h
    refine ⟨by omega, ?_⟩
    split at h
    · exact absurd h (by simp)
    · split at h
      · rename_i hc
        exact Or.inl hc
      · split at h
        · rename_i hc
          exact Or.inr (Or.inl hc)
        · split at h
          · rename_i hc
            exact Or.inr (Or.inr hc)
          · exact absurd h (by simp)

theorem compress_tag_byte (gzipC zlibC : List Nat → List Nat) (nbtBytes : List Nat)
    (c : Nat) (hc : c = 1 ∨ c = 2 ∨ c = 3) :
    (compress_chunk_nbt gzipC zlibC nbtBytes c).getD 4 0 = c := by
  rcases hc with h | h | h <;> subst h <;>
    simp [compress_chunk_nbt, be4, List.getD_cons_succ, List.getD_cons_zero]

/-- C6: a chunk rewritten by region processing keeps its compression tag byte: the new
blob's envelope tag equals the tag observed on the input blob, and that tag is one of
the known values 1 (gzip), 2 (zlib), 3 (uncompressed), because rewriting only happens
after a successful decompression. -/
theorem process_chunk_preserves_tag (gzipC zlibC : List Nat → List Nat)
    (gunzip zunzip : List Nat → Option (List Nat))
    (parseNbt : List Nat → Option Nbt) (writeNbt : Nbt → List Nat)
    (mapping : String → Option String) (fallback : Option String)
    (yMin yMax : Option Int) (blob nb : List Nat) (ec : Nat)
    (h : process_chunk gzipC zlibC gunzip zunzip parseNbt writeNbt mapping fallback
      yMin yMax blob = .rewritten nb ec) :
    nb.getD 4 0 = blob.getD 4 0 ∧
    nb.getD 4 0 = chunk_blob_compression_type blob ∧
    (blob.getD 4 0 = 1 ∨ blob.getD 4 0 = 2 ∨ blob.getD 4 0 = 3) := by
  unfold process_chunk at h
  rcases hd : decompress_chunk_nbt gunzip zunzip blob with e | raw
  · rw [hd] at h
    exact absurd h (by simp)
  · simp only [hd] at h
    obtain ⟨h5, hcomp⟩ := decompress_ok_comp gunzip zunzip blob raw hd
    have hcbt : chunk_blob_compression_type blob = blob.getD 4 0 := by
      unfold chunk_blob_compression_type
      rw [if_pos h5]
      exact getD_default_irrel blob 4 2 0 (by omega)
    rcases hp : parseNbt raw with _ | root
    · rw [hp] at h
      exact absurd h (by simp)
    · simp only [hp] at h
      rcases hr : remap_chunk_biome_palettes mapping fallback yMin yMax root with _ | res
      · rw [hr] at h
        exact absurd h (by simp)
      · obtain ⟨root', wasChanged, ec'⟩ := res
        simp only [hr] at h
        split at h
        · injection h with h1 h2
          subst h1
          rw [hcbt]
          exact ⟨compress_tag_byte gzipC zlibC (writeNbt root') (blob.getD 4 0) hcomp,
            compress_tag_byte gzipC zlibC (writeNbt root') (blob.getD 4 0) hcomp, hcomp⟩
        · exact absurd h (by simp)

/-- Witness for C6: a 3-tagged (uncompressed) chunk whose single palette entry is
remapped; the rewritten blob keeps tag 3. -/
theorem process_chunk_preserves_tag_witness :
    (process_chunk (fun x => x) (fun x => x) some some
      (fun _ => some (.compound [("sections", .list [.compound [("biomes",
        .compound [("palette", .list [.string "terralith:yellowstone"])])]])]))
      (fun _ => [7])
      (fun q => if q = "terralith:yellowstone" then some "minecraft:badlands" else none)
      none none none [0, 0, 0, 2, 3, 9] = .rewritten [0, 0, 0, 2, 3, 7] 1) ∧
    ([0, 0, 0, 2, 3, 7] : List Nat).getD 4 0 = ([0, 0, 0, 2, 3, 9] : List Nat).getD 4 0 := by
  have h : process_chunk (fun x => x) (fun x => x) some some
      (fun _ => some (.compound [("sections", .list [.compound [("biomes",
        .compound [("palette", .list [.string "terralith:yellowstone"])])]])]))
      (fun _ => [7])
      (fun q => if q = "terralith:yellowstone" then some "minecraft:badlands" else none)
      none none none [0, 0, 0, 2, 3, 9] = .rewritten [0, 0, 0, 2, 3, 7] 1 := rfl
  exact ⟨h, (process_chunk_preserves_tag _ _ _ _ _ _ _ _ _ _ _ _ _ h).1⟩

/-! ## Rebuild: list bookkeeping lemmas -/

/-- The total sector count recorded in a location table. -/
def sumCounts (locs : List (Nat × Nat)) : Nat := (locs.map (fun e => e.2)).sum

theorem getD_set_self {α : Type} (l : List α) (i : Nat) (a d : α) (h : i < l.length) :
    (l.set i a).getD i d = a := by
  induction l generalizing i with
  | nil => simp at h
  | cons x xs ih =>
    cases i with
    | zero => rfl
    | succ j =>
      simp only [List.set_cons_succ, List.getD_cons_succ]
      exact ih j (by simpa using h)

theorem getD_set_ne {α : Type} (l : List α) (i j : Nat) (a d : α) (h : i ≠ j) :
    (l.set i a).getD j d = l.getD j d := by
  induction l generalizing i j with
  | nil => simp [List.set]
  | cons x xs ih =>
    cases i with
    | zero =>
      cases j with
      | zero => exact absurd rfl h
      | succ j' => rfl
    | succ i' =>
      cases j with
      | zero => rfl
      | succ j' =>
        simp only [List.set_cons_succ, List.getD_cons_succ]
        exact ih i' j' (fun hh => h (by rw [hh]))

theorem take_set_of_le {α : Type} (l : List α) (i j : Nat) (a : α) (h : j ≤ i) :
    (l.set i a).take j = l.take j := by
  induction l generalizing i j with
  | nil => simp [List.set]
  | cons x xs ih =>
    cases i with
    | zero =>
      cases j with
      | zero => rfl
      | succ j' => simp at h
    | succ i' =>
      cases j with
      | zero => rfl
      | succ j' =>
        simp only [List.set_cons_succ, List.take_succ_cons]
        rw [ih i' j' (by omega)]

theorem sumCounts_zero_of_fresh (l : List (Nat × Nat))
    (h : ∀ i, l.getD i (0, 0) = (0, 0)) : sumCounts l = 0 := by
  induction l with
  | nil => rfl
  | cons e rest ih =>
    have h0 : e = (0, 0) := h 0
    have hr : sumCounts rest = 0 := ih (fun i => h (i + 1))
    simp [sumCounts, h0] at *
    simp [hr]

theorem sumCounts_take_of_fresh (l : List (Nat × Nat)) (k : Nat)
    (h : ∀ i, k ≤ i → l.getD i (0, 0) = (0, 0)) :
    sumCounts (l.take k) = sumCounts l := by
  induction l generalizing k with
  | nil => simp
  | cons e rest ih =>
    cases k with
    | zero =>
      have h0 : e = (0, 0) := h 0 (by omega)
      have hr : sumCounts rest = 0 :=
        sumCounts_zero_of_fresh rest (fun i => h (i + 1) (by omega))
      simp [sumCounts, h0] at *
      simp [hr]
    | succ k' =>
      simp only [List.take_succ_cons, sumCounts, List.map_cons, List.sum_cons]
      have := ih k' (fun i hi => h (i + 1) (by omega))
      simp only [sumCounts] at this
      omega

theorem sumCounts_set_zero (l : List (Nat × Nat)) (k : Nat) (e : Nat × Nat)
    (hk : k < l.length) (h0 : l.getD k (0, 0) = (0, 0)) :
    sumCounts (l.set k e) = sumCounts l + e.2 := by
  induction l generalizing k with
  | nil => simp at hk
  | cons x xs ih =>
    cases k with
    | zero =>
      have hx : x = (0, 0) := h0
      simp [sumCounts, hx]
      omega
    | succ k' =>
      simp only [List.set_cons_succ, sumCounts, List.map_cons, List.sum_cons]
      have := ih k' (by simpa using hk) h0
      simp only [sumCounts] at this
      omega

theorem sectorsNeededFor_pos (blob : List Nat) : 1 ≤ sectorsNeededFor blob := by
  simp [sectorsNeededFor]

theorem length_le_sectors (blob : List Nat) :
    blob.length ≤ sectorsNeededFor blob * 4096 := by
  unfold sectorsNeededFor
  have hdm := Nat.div_add_mod (blob.length + 4095) 4096
  have hmod : (blob.length + 4095) % 4096 < 4096 := Nat.mod_lt _ (by omega)
  have : blob.length ≤ (blob.length + 4095) / 4096 * 4096 := by omega
  calc blob.length ≤ (blob.length + 4095) / 4096 * 4096 := this
    _ ≤ max 1 ((blob.length + 4095) / 4096) * 4096 :=
        Nat.mul_le_mul_right 4096 (Nat.le_max_right 1 _)

theorem drop_append_len {α : Type} (A B : List α) (m : Nat) :
    (A ++ B).drop (A.length + m) = B.drop m := by
  induction A with
  | nil => simp
  | cons a as ih =>
    simp only [List.cons_append, List.length_cons]
    rw [Nat.succ_add, List.drop_succ_cons]
    exact ih

theorem byteSlice_append_left (A B : List Nat) (off len : Nat)
    (h : off + len ≤ A.length) :
    byteSlice (A ++ B) off len = byteSlice A off len := by
  unfold byteSlice
  rw [List.drop_append_of_le_length (by omega)]
  rw [List.take_append_of_le_length (by simp; omega)]

theorem byteSlice_at (A b rest : List Nat) :
    byteSlice (A ++ (b ++ rest)) A.length b.length = b := by
  unfold byteSlice
  rw [show A.length = A.length + 0 by omega, drop_append_len]
  simp [List.take_left]

/-- The invariant that the rebuild loop maintains on its state: the tables have 1024
slots; the payload is exactly the sectors allocated so far (`current_sector` counts the
two header sectors); the sector counter is 2 plus the allocated counts; every written
entry starts at sector 2 plus the counts of the entries at lower indices (the compact,
in-index-order layout) with a count in 1..255. -/
def stInv (st : RState) : Prop :=
  st.locs.length = 1024 ∧ st.ts.length = 1024 ∧ 2 ≤ st.cur ∧
  st.payload.length + 8192 = st.cur * 4096 ∧
  st.cur = 2 + sumCounts st.locs ∧
  ∀ j : Nat, st.locs.getD j (0, 0) = (0, 0) ∨
    (2 ≤ (st.locs.getD j (0, 0)).1 ∧ 1 ≤ (st.locs.getD j (0, 0)).2 ∧
     (st.locs.getD j (0, 0)).2 ≤ 255 ∧
     (st.locs.getD j (0, 0)).1 = 2 + sumCounts (st.locs.take j))

/-- What the loop guarantees per index on success. -/
def emitResultOK (original : List Nat) (updated : Nat → Option (List Nat × Bool))
    (locsOld : List (Nat × Nat)) (tsOld : List Nat) (now : Nat)
    (startCur : Nat) (st' : RState) (idx : Nat) : Prop :=
  match emitAt original updated locsOld tsOld now idx with
  | none => st'.locs.getD idx (0, 0) = (0, 0) ∧ st'.ts.getD idx 0 = 0
  | some (b, t) =>
      st'.ts.getD idx 0 = t ∧
      (st'.locs.getD idx (0, 0)).2 = sectorsNeededFor b ∧
      sectorsNeededFor b ≤ 255 ∧
      startCur ≤ (st'.locs.getD idx (0, 0)).1 ∧
      byteSlice st'.payload (((st'.locs.getD idx (0, 0)).1 - 2) * 4096) b.length = b

theorem rebuildLoop_nil (original : List Nat) (updated : Nat → Option (List Nat × Bool))
    (locsOld : List (Nat × Nat)) (tsOld : List Nat) (now : Nat) (st : RState) :
    rebuildLoop original updated locsOld tsOld now [] st = .ok st := rfl

theorem rebuildLoop_cons_none (original : List Nat) (updated : Nat → Option (List Nat × Bool))
    (locsOld : List (Nat × Nat)) (tsOld : List Nat) (now idx : Nat) (rest : List Nat)
    (st : RState) (h : emitAt original updated locsOld tsOld now idx = none) :
    rebuildLoop original updated locsOld tsOld now (idx :: rest) st =
      rebuildLoop original updated locsOld tsOld now rest st := by
  simp only [rebuildLoop, h]

theorem rebuildLoop_cons_big (original : List Nat) (updated : Nat → Option (List Nat × Bool))
    (locsOld : List (Nat × Nat)) (tsOld : List Nat) (now idx : Nat) (rest : List Nat)
    (st : RState) (b : List Nat) (t : Nat)
    (h : emitAt original updated locsOld tsOld now idx = some (b, t))
    (hbig : 255 < sectorsNeededFor b) :
    rebuildLoop original updated locsOld tsOld now (idx :: rest) st =
      .error (.chunkTooLarge (sectorsNeededFor b)) := by
  simp only [rebuildLoop, h]
  rw [if_pos hbig]

theorem rebuildLoop_cons_emit (original : List Nat) (updated : Nat → Option (List Nat × Bool))
    (locsOld : List (Nat × Nat)) (tsOld : List Nat) (now idx : Nat) (rest : List Nat)
    (st : RState) (b : List Nat) (t : Nat)
    (h : emitAt original updated locsOld tsOld now idx = some (b, t))
    (hbig : ¬255 < sectorsNeededFor b) :
    rebuildLoop original updated locsOld tsOld now (idx :: rest) st =
      rebuildLoop original updated locsOld tsOld now rest
        { payload := st.payload ++ b ++
            List.replicate (sectorsNeededFor b * 4096 - b.length) 0
          cur := st.cur + sectorsNeededFor b
          locs := st.locs.set idx (st.cur, sectorsNeededFor b)
          ts := st.ts.set idx t } := by
  simp only [rebuildLoop, h]
  rw [if_neg hbig]

theorem rebuildLoop_spec (original : List Nat) (updated : Nat → Option (List Nat × Bool))
    (locsOld : List (Nat × Nat)) (tsOld : List Nat) (now : Nat) :
    ∀ (n k : Nat) (st : RState), k + n ≤ 1024 → stInv st →
    (∀ i, k ≤ i → st.locs.getD i (0, 0) = (0, 0) ∧ st.ts.getD i 0 = 0) →
    (match rebuildLoop original updated locsOld tsOld now (List.range' k n) st with
     | .error e =>
        ∃ idx b t, k ≤ idx ∧ idx < k + n ∧
          emitAt original updated locsOld tsOld now idx = some (b, t) ∧
          255 < sectorsNeededFor b ∧ e = .chunkTooLarge (sectorsNeededFor b)
     | .ok st' =>
        stInv st' ∧ st.cur ≤ st'.cur ∧
        (∃ ext, st'.payload = st.payload ++ ext) ∧
        (∀ j, j < k → st'.locs.getD j (0, 0) = st.locs.getD j (0, 0) ∧
          st'.ts.getD j 0 = st.ts.getD j 0) ∧
        (∀ i, k + n ≤ i → st'.locs.getD i (0, 0) = (0, 0) ∧ st'.ts.getD i 0 = 0) ∧
        (∀ idx, k ≤ idx → idx < k + n →
          emitResultOK original updated locsOld tsOld now st.cur st' idx)) := by
  intro n
  induction n with
  | zero =>
    intro k st hk hinv hfresh
    rw [show List.range' k 0 = [] from rfl,
      rebuildLoop_nil original updated locsOld tsOld now st]
    exact ⟨hinv, Nat.le_refl _, ⟨[], by simp⟩, fun j _ => ⟨rfl, rfl⟩,
      fun i hi => hfresh i (by omega), fun idx h1 h2 => absurd h2 (by omega)⟩
  | succ n ih =>
    intro k st hk hinv hfresh
    rw [show List.range' k (n + 1) = k :: List.range' (k + 1) n from rfl]
    obtain ⟨hlocs, hts, hcur2, hpay, hcursum, hentries⟩ := hinv
    cases hemit : emitAt original updated locsOld tsOld now k with
    | none =>
      rw [rebuildLoop_cons_none original updated locsOld tsOld now k _ st hemit]
      have hres := ih (k + 1) st (by omega) ⟨hlocs, hts, hcur2, hpay, hcursum, hentries⟩
        (fun i hi => hfresh i (by omega))
      cases hloop : rebuildLoop original updated locsOld tsOld now
          (List.range' (k + 1) n) st with
      | error e =>
        rw [hloop] at hres
        obtain ⟨idx, b, t, h1, h2, h3, h4, h5⟩ := hres
        exact ⟨idx, b, t, by omega, by omega, h3, h4, h5⟩
      | ok st' =>
        rw [hloop] at hres
        obtain ⟨hinv', hcur', hext, hpres, hfresh', hidx⟩ := hres
        refine ⟨hinv', hcur', hext, ?_, ?_, ?_⟩
        · intro j hj
          exact hpres j (by omega)
        · intro i hi
          exact hfresh' i (by omega)
        · intro idx h1 h2
          rcases Nat.eq_or_lt_of_le h1 with heq | hlt
          · rw [← heq]
            unfold emitResultOK
            rw [hemit]
            have hp := hpres k (by omega)
            rw [hp.1, hp.2]
            exact ⟨(hfresh k (by omega)).1, (hfresh k (by omega)).2⟩
          · exact hidx idx (by omega) (by omega)
    | some bt =>
      obtain ⟨b, t⟩ := bt
      by_cases hbig : 255 < sectorsNeededFor b
      · rw [rebuildLoop_cons_big original updated locsOld tsOld now k _ st b t hemit hbig]
        exact ⟨k, b, t, by omega, by omega, hemit, hbig, rfl⟩
      · rw [rebuildLoop_cons_emit original updated locsOld tsOld now k _ st b t hemit hbig]
        set st1 : RState :=
          { payload := st.payload ++ b ++
              List.replicate (sectorsNeededFor b * 4096 - b.length) 0
            cur := st.cur + sectorsNeededFor b
            locs := st.locs.set k (st.cur, sectorsNeededFor b)
            ts := st.ts.set k t } with hst1
        have hc1 : st1.cur = st.cur + sectorsNeededFor b := rfl
        have hp1 : st1.payload = st.payload ++ b ++
            List.replicate (sectorsNeededFor b * 4096 - b.length) 0 := rfl
        have hl1 : st1.locs = st.locs.set k (st.cur, sectorsNeededFor b) := rfl
        have ht1 : st1.ts = st.ts.set k t := rfl
        have hk1024 : k < 1024 := by omega
        have hkl : k < st.locs.length := by omega
        have hfreshk := hfresh k (by omega)
        have hsumtake : sumCounts (st.locs.take k) = sumCounts st.locs :=
          sumCounts_take_of_fresh st.locs k (fun i hi => (hfresh i hi).1)
        have hble := length_le_sectors b
        have hinv1 : stInv st1 := by
          refine ⟨?_, ?_, ?_, ?_, ?_, ?_⟩
          · rw [hl1, List.length_set]
            exact hlocs
          · rw [ht1, List.length_set]
            exact hts
          · rw [hc1]
            omega
          · rw [hp1, hc1]
            simp only [List.length_append, List.length_replicate]
            omega
          · rw [hc1, hl1, sumCounts_set_zero st.locs k _ hkl hfreshk.1]
            omega
          · intro j
            rw [hl1]
            by_cases hj : j = k
            · rw [hj]
              right
              rw [getD_set_self st.locs k _ _ hkl]
              refine ⟨hcur2, sectorsNeededFor_pos b, by omega, ?_⟩
              rw [take_set_of_le st.locs k k _ (Nat.le_refl k), hsumtake]
              exact hcursum
            · rw [getD_set_ne st.locs k j _ _ (fun hh => hj hh.symm)]
              rcases hentries j with hz | ⟨ho1, ho2, ho3, ho4⟩
              · exact Or.inl hz
              · right
                refine ⟨ho1, ho2, ho3, ?_⟩
                by_cases hjk : j ≤ k
                · rw [take_set_of_le st.locs k j _ hjk]
                  exact ho4
                · exfalso
                  have hzz := (hfresh j (by omega)).1
                  rw [hzz] at ho2
                  simp at ho2
        have hfresh1 : ∀ i, k + 1 ≤ i →
            st1.locs.getD i (0, 0) = (0, 0) ∧ st1.ts.getD i 0 = 0 := by
          intro i hi
          constructor
          · rw [hl1, getD_set_ne st.locs k i _ _ (by omega)]
            exact (hfresh i (by omega)).1
          · rw [ht1, getD_set_ne st.ts k i _ _ (by omega)]
            exact (hfresh i (by omega)).2
        have hres := ih (k + 1) st1 (by omega) hinv1 hfresh1
        cases hloop : rebuildLoop original updated locsOld tsOld now
            (List.range' (k + 1) n) st1 with
        | error e =>
          rw [hloop] at hres
          obtain ⟨idx, b', t', h1, h2, h3, h4, h5⟩ := hres
          exact ⟨idx, b', t', by omega, by omega, h3, h4, h5⟩
        | ok st' =>
          rw [hloop] at hres
          obtain ⟨hinv', hcur', ⟨ext, hext⟩, hpres, hfresh', hidx⟩ := hres
          rw [hc1] at hcur'
          refine ⟨hinv', by omega, ?_, ?_, ?_, ?_⟩
          · refine ⟨b ++ List.replicate (sectorsNeededFor b * 4096 - b.length) 0 ++ ext, ?_⟩
            rw [hext, hp1]
            simp
          · intro j hj
            have hp := hpres j (by omega)
            rw [hp.1, hp.2, hl1, ht1, getD_set_ne st.locs k j _ _ (by omega),
              getD_set_ne st.ts k j _ _ (by omega)]
            exact ⟨rfl, rfl⟩
          · intro i hi
            exact hfresh' i (by omega)
          · intro idx h1 h2
            rcases Nat.eq_or_lt_of_le h1 with heq | hlt
            · rw [← heq]
              unfold emitResultOK
              rw [hemit]
              have hp := hpres k (by omega)
              have hlocsk : st1.locs.getD k (0, 0) = (st.cur, sectorsNeededFor b) := by
                rw [hl1]
                exact getD_set_self st.locs k _ _ hkl
              have htsk : st1.ts.getD k 0 = t := by
                rw [ht1]
                exact getD_set_self st.ts k _ _ (by omega)
              rw [hp.1, hp.2, hlocsk, htsk]
              refine ⟨rfl, rfl, by omega, Nat.le_refl _, ?_⟩
              have hoff : (st.cur - 2) * 4096 = st.payload.length := by
                have hexp : (st.cur - 2) * 4096 + 2 * 4096 = st.cur * 4096 := by
                  rw [← Nat.add_mul]
                  congr 1
                  omega
                omega
              rw [hext]
              have hin : (st.cur - 2) * 4096 + b.length ≤ st1.payload.length := by
                rw [hp1]
                simp only [List.length_append, List.length_replicate]
                omega
              rw [byteSlice_append_left st1.payload ext _ _ hin, hp1, hoff]
              have hsl := byteSlice_at st.payload b
                (List.replicate (sectorsNeededFor b * 4096 - b.length) 0)
              rw [← List.append_assoc] at hsl
              exact hsl
            · have hthis := hidx idx (by omega) (by omega)
              rw [hc1] at hthis
              unfold emitResultOK at hthis ⊢
              cases hemit2 : emitAt original updated locsOld tsOld now idx with
              | none =>
                rw [hemit2] at hthis
                exact hthis
              | some bt2 =>
                obtain ⟨b2, t2⟩ := bt2
                rw [hemit2] at hthis
                refine ⟨hthis.1, hthis.2.1, hthis.2.2.1, ?_, hthis.2.2.2.2⟩
                have := hthis.2.2.2.1
                omega

theorem getD_replicate {α : Type} (n i : Nat) (a : α) :
    (List.replicate n a).getD i a = a := by
  induction n generalizing i with
  | zero => rfl
  | succ m ih =>
    cases i with
    | zero => rfl
    | succ j =>
      simp only [List.replicate, List.getD_cons_succ]
      exact ih j

theorem sumCounts_replicate : sumCounts (List.replicate 1024 ((0, 0) : Nat × Nat)) = 0 := by
  apply sumCounts_zero_of_fresh
  intro i
  exact getD_replicate 1024 i (0, 0)

theorem stInv_init : stInv ⟨[], 2, List.replicate 1024 (0, 0), List.replicate 1024 0⟩ := by
  refine ⟨by simp, by simp, Nat.le_refl 2, by simp, by rw [sumCounts_replicate], ?_⟩
  intro j
  exact Or.inl (getD_replicate 1024 j (0, 0))

/-- The per-slot blob/timestamp decision of `_rebuild_region`, at the top level. -/
def rebuildEmit (original : List Nat) (updated : Nat → Option (List Nat × Bool))
    (now idx : Nat) : Option (List Nat × Nat) :=
  emitAt original updated (read_locations original) (read_timestamps original) now idx

theorem rebuild_region_spec (original : List Nat) (updated : Nat → Option (List Nat × Bool))
    (now : Nat) :
    match rebuild_region original updated now with
    | .error e =>
        ∃ idx b t, idx < 1024 ∧ rebuildEmit original updated now idx = some (b, t) ∧
          255 < sectorsNeededFor b ∧ e = .chunkTooLarge (sectorsNeededFor b)
    | .ok out => ∃ st' : RState, stInv st' ∧
        out = locTableBytes st'.locs ++ (tsTableBytes st'.ts ++ st'.payload) ∧
        (∀ i, 1024 ≤ i → st'.locs.getD i (0, 0) = (0, 0) ∧ st'.ts.getD i 0 = 0) ∧
        (∀ idx, idx < 1024 →
          emitResultOK original updated (read_locations original)
            (read_timestamps original) now 2 st' idx) := by
  have hfresh0 : ∀ i, 0 ≤ i →
      (List.replicate 1024 ((0, 0) : Nat × Nat)).getD i (0, 0) = (0, 0) ∧
      (List.replicate 1024 (0 : Nat)).getD i 0 = 0 :=
    fun i _ => ⟨getD_replicate 1024 i (0, 0), getD_replicate 1024 i 0⟩
  have hmain := rebuildLoop_spec original updated (read_locations original)
    (read_timestamps original) now 1024 0
    ⟨[], 2, List.replicate 1024 (0, 0), List.replicate 1024 0⟩ (by omega) stInv_init hfresh0
  rw [show List.range' 0 1024 = List.range 1024 by rw [List.range_eq_range']] at hmain
  unfold rebuild_region
  cases hloop : rebuildLoop original updated (read_locations original)
      (read_timestamps original) now (List.range 1024)
      ⟨[], 2, List.replicate 1024 (0, 0), List.replicate 1024 0⟩ with
  | error e =>
    rw [hloop] at hmain
    obtain ⟨idx, b, t, h1, h2, h3, h4, h5⟩ := hmain
    exact ⟨idx, b, t, by omega, h3, h4, h5⟩
  | ok st' =>
    rw [hloop] at hmain
    obtain ⟨hinv', hcur', hext, hpres, hfresh', hidx⟩ := hmain
    refine ⟨st', hinv', by simp, ?_, ?_⟩
    · intro i hi
      exact hfresh' i (by omega)
    · intro idx hidx2
      exact hidx idx (by omega) (by omega)

/-! ## Parsing the rebuilt header back -/

theorem locTableBytes_cons (e : Nat × Nat) (L : List (Nat × Nat)) :
    locTableBytes (e :: L) = locEntryBytes e ++ locTableBytes L := by
  simp [locTableBytes]

theorem length_locTableBytes (L : List (Nat × Nat)) :
    (locTableBytes L).length = 4 * L.length := by
  induction L with
  | nil => rfl
  | cons e Ls ih =>
    rw [locTableBytes_cons]
    simp only [List.length_append, ih, List.length_cons]
    have : (locEntryBytes e).length = 4 := rfl
    omega

theorem tsTableBytes_cons (t : Nat) (T : List Nat) :
    tsTableBytes (t :: T) = be4 t ++ tsTableBytes T := by
  simp [tsTableBytes]

theorem length_tsTableBytes (T : List Nat) :
    (tsTableBytes T).length = 4 * T.length := by
  induction T with
  | nil => rfl
  | cons t Ts ih =>
    rw [tsTableBytes_cons]
    simp only [List.length_append, ih, List.length_cons]
    have : (be4 t).length = 4 := rfl
    omega

theorem locTable_slice (L : List (Nat × Nat)) (rest : List Nat) (i : Nat)
    (hi : i < L.length) :
    ((locTableBytes L ++ rest).drop (4 * i)).take 4 = locEntryBytes (L.getD i (0, 0)) := by
  induction L generalizing i rest with
  | nil => simp at hi
  | cons e Ls ih =>
    rw [locTableBytes_cons]
    cases i with
    | zero =>
      simp only [Nat.mul_zero, List.drop_zero, List.getD_cons_zero, List.append_assoc]
      rw [show (4 : Nat) = (locEntryBytes e).length from rfl, List.take_left]
    | succ j =>
      rw [List.append_assoc,
        show 4 * (j + 1) = (locEntryBytes e).length + 4 * j by
          show 4 * (j + 1) = 4 + 4 * j
          omega,
        drop_append_len]
      exact ih rest j (by simpa using hi)

theorem tsTable_slice (T : List Nat) (rest : List Nat) (i : Nat) (hi : i < T.length) :
    ((tsTableBytes T ++ rest).drop (4 * i)).take 4 = be4 (T.getD i 0) := by
  induction T generalizing i rest with
  | nil => simp at hi
  | cons t Ts ih =>
    rw [tsTableBytes_cons]
    cases i with
    | zero =>
      simp only [Nat.mul_zero, List.drop_zero, List.getD_cons_zero, List.append_assoc]
      rw [show (4 : Nat) = (be4 t).length from rfl, List.take_left]
    | succ j =>
      rw [List.append_assoc,
        show 4 * (j + 1) = (be4 t).length + 4 * j by
          show 4 * (j + 1) = 4 + 4 * j
          omega,
        drop_append_len]
      exact ih rest j (by simpa using hi)

theorem parse_locEntry (e : Nat × Nat) (hoff : e.1 < 16777216) (hcnt : e.2 < 256) :
    (beBytesToNat ((locEntryBytes e).take 3), (locEntryBytes e).getD 3 0) = e := by
  obtain ⟨off, cnt⟩ := e
  simp only [locEntryBytes, be3, Prod.mk.injEq] at *
  constructor
  · simp only [List.cons_append, List.nil_append, List.take, beBytesToNat, List.foldl]
    omega
  · simp only [List.cons_append, List.nil_append, List.getD_cons_succ, List.getD_cons_zero]
    omega

theorem beBytesToNat_be4 (t : Nat) (h : t < 4294967296) : beBytesToNat (be4 t) = t := by
  simp only [be4, beBytesToNat, List.foldl]
  omega

theorem sumCounts_take_le (l : List (Nat × Nat)) (k : Nat) :
    sumCounts (l.take k) ≤ sumCounts l := by
  induction l generalizing k with
  | nil => simp
  | cons e rest ih =>
    cases k with
    | zero => simp [sumCounts]
    | succ k' =>
      simp only [List.take_succ_cons, sumCounts, List.map_cons, List.sum_cons]
      have := ih k'
      simp only [sumCounts] at this
      omega

theorem sumCounts_take_succ (l : List (Nat × Nat)) (i : Nat) (hi : i < l.length) :
    sumCounts (l.take (i + 1)) = sumCounts (l.take i) + (l.getD i (0, 0)).2 := by
  induction l generalizing i with
  | nil => simp at hi
  | cons e rest ih =>
    cases i with
    | zero => simp [sumCounts]
    | succ i' =>
      simp only [List.take_succ_cons, sumCounts, List.map_cons, List.sum_cons,
        List.getD_cons_succ]
      have := ih i' (by simpa using hi)
      simp only [sumCounts] at this
      omega

theorem sumCounts_take_mono (l : List (Nat × Nat)) (i j : Nat) (h : i ≤ j) :
    sumCounts (l.take i) ≤ sumCounts (l.take j) := by
  have h1 : l.take i = (l.take j).take i := by
    rw [List.take_take, Nat.min_eq_left h]
  rw [h1]
  exact sumCounts_take_le (l.take j) i

theorem sumCounts_le_of_bounded (l : List (Nat × Nat))
    (h : ∀ j, j < l.length → (l.getD j (0, 0)).2 ≤ 255) :
    sumCounts l ≤ 255 * l.length := by
  induction l with
  | nil => simp [sumCounts]
  | cons e rest ih =>
    have h0 : e.2 ≤ 255 := h 0 (by simp)
    have hr := ih (fun j hj => h (j + 1) (by simpa using hj))
    simp only [sumCounts, List.map_cons, List.sum_cons, List.length_cons]
    simp only [sumCounts] at hr
    omega

theorem beBytesToNat_foldl_lt (l : List Nat) (a : Nat) (h : ∀ x ∈ l, x < 256) :
    l.foldl (fun a x => a * 256 + x) a < (a + 1) * 256 ^ l.length := by
  induction l generalizing a with
  | nil => simp
  | cons x xs ih =>
    simp only [List.foldl, List.length_cons]
    have hx : x < 256 := h x (by simp)
    have ihh := ih (a * 256 + x) (fun y hy => h y (by simp [hy]))
    calc xs.foldl (fun a x => a * 256 + x) (a * 256 + x)
        < (a * 256 + x + 1) * 256 ^ xs.length := ihh
      _ ≤ ((a + 1) * 256) * 256 ^ xs.length :=
          Nat.mul_le_mul_right _ (by omega)
      _ = (a + 1) * 256 ^ (xs.length + 1) := by ring

theorem beBytesToNat_lt (l : List Nat) (h : ∀ x ∈ l, x < 256) :
    beBytesToNat l < 256 ^ l.length := by
  have := beBytesToNat_foldl_lt l 0 h
  simpa [beBytesToNat] using this

theorem beBytesToNat_slice4_lt (r : List Nat) (hb : ∀ x ∈ r, x < 256) (m : Nat) :
    beBytesToNat ((r.drop m).take 4) < 4294967296 := by
  have hlen : ((r.drop m).take 4).length ≤ 4 := by
    simp [List.length_take]
  have hmem : ∀ x ∈ (r.drop m).take 4, x < 256 := by
    intro x hx
    exact hb x (List.drop_subset m r (List.take_subset 4 (r.drop m) hx))
  have h1 := beBytesToNat_lt ((r.drop m).take 4) hmem
  have h2 : (256 : Nat) ^ ((r.drop m).take 4).length ≤ 256 ^ 4 :=
    Nat.pow_le_pow_right (by omega) hlen
  have h3 : (256 : Nat) ^ 4 = 4294967296 := by norm_num
  omega

theorem read_locations_length (r : List Nat) : (read_locations r).length = 1024 := by
  simp [read_locations]

theorem read_timestamps_length (r : List Nat) : (read_timestamps r).length = 1024 := by
  simp [read_timestamps]

theorem read_locations_getD (r : List Nat) (i : Nat) (hi : i < 1024) :
    (read_locations r).getD i (0, 0) =
      (beBytesToNat (((r.drop (i * 4)).take 4).take 3), ((r.drop (i * 4)).take 4).getD 3 0) := by
  rw [List.getD_eq_getElem (read_locations r) (0, 0)
    (by rw [read_locations_length]; omega)]
  simp [read_locations]

theorem read_timestamps_getD (r : List Nat) (i : Nat) (hi : i < 1024) :
    (read_timestamps r).getD i 0 = beBytesToNat ((r.drop (4096 + i * 4)).take 4) := by
  rw [List.getD_eq_getElem (read_timestamps r) 0
    (by rw [read_timestamps_length]; omega)]
  simp [read_timestamps]

theorem read_timestamps_getD_lt (r : List Nat) (hb : ∀ x ∈ r, x < 256) (i : Nat) :
    (read_timestamps r).getD i 0 < 4294967296 := by
  by_cases hi : i < 1024
  · rw [read_timestamps_getD r i hi]
    exact beBytesToNat_slice4_lt r hb _
  · rw [List.getD_eq_default]
    · omega
    · rw [read_timestamps_length]; omega

theorem read_locations_of_tables (L : List (Nat × Nat)) (T P : List Nat)
    (hL : L.length = 1024)
    (hoff : ∀ i, i < 1024 → (L.getD i (0, 0)).1 < 16777216)
    (hcnt : ∀ i, i < 1024 → (L.getD i (0, 0)).2 < 256) :
    read_locations (locTableBytes L ++ (tsTableBytes T ++ P)) = L := by
  apply List.ext_getElem
  · rw [read_locations_length, hL]
  · intro i h1 h2
    rw [← List.getD_eq_getElem (read_locations _) (0, 0) h1,
      ← List.getD_eq_getElem L (0, 0) h2]
    rw [read_locations_getD _ i (by rw [read_locations_length] at h1; omega)]
    rw [Nat.mul_comm i 4, locTable_slice L _ i (by omega)]
    exact parse_locEntry (L.getD i (0, 0))
      (hoff i (by omega)) (hcnt i (by omega))

theorem read_timestamps_of_tables (L : List (Nat × Nat)) (T P : List Nat)
    (hL : L.length = 1024) (hT : T.length = 1024)
    (hts : ∀ i, i < 1024 → T.getD i 0 < 4294967296) :
    read_timestamps (locTableBytes L ++ (tsTableBytes T ++ P)) = T := by
  apply List.ext_getElem
  · rw [read_timestamps_length, hT]
  · intro i h1 h2
    rw [← List.getD_eq_getElem (read_timestamps _) 0 h1,
      ← List.getD_eq_getElem T 0 h2]
    have hi : i < 1024 := by rw [read_timestamps_length] at h1; omega
    rw [read_timestamps_getD _ i hi]
    rw [show 4096 + i * 4 = (locTableBytes L).length + 4 * i by
      rw [length_locTableBytes, hL]; omega]
    rw [drop_append_len, tsTable_slice T P i (by omega)]
    exact beBytesToNat_be4 _ (hts i hi)

theorem emitAt_ts (original : List Nat) (updated : Nat → Option (List Nat × Bool))
    (locsOld : List (Nat × Nat)) (tsOld : List Nat) (now idx : Nat) (b : List Nat) (t : Nat)
    (h : emitAt original updated locsOld tsOld now idx = some (b, t)) :
    t = now ∨ t = tsOld.getD idx 0 := by
  simp only [emitAt] at h
  by_cases h0 : (locsOld.getD idx (0, 0)).1 = 0 ∨ (locsOld.getD idx (0, 0)).2 = 0
  · rw [if_pos h0] at h
    exact absurd h (by simp)
  · rw [if_neg h0] at h
    cases hu : updated idx with
    | some p =>
      obtain ⟨b', w⟩ := p
      rw [hu] at h
      simp only [Option.some.injEq, Prod.mk.injEq] at h
      cases w with
      | true =>
        left
        have h2 := h.2
        rw [if_pos rfl] at h2
        omega
      | false =>
        right
        have h2 := h.2
        rw [if_neg (by simp)] at h2
        omega
    | none =>
      rw [hu] at h
      cases hg : get_chunk_blob original (locsOld.getD idx (0, 0)).1
          (locsOld.getD idx (0, 0)).2 with
      | none => rw [hg] at h; simp at h
      | some b' =>
        rw [hg] at h
        have h' : ((b', tsOld.getD idx 0) : List Nat × Nat) = (b, t) := Option.some.inj h
        exact Or.inr (congrArg Prod.snd h').symm

theorem byteSlice_append_shift (A B : List Nat) (m len : Nat) :
    byteSlice (A ++ B) (A.length + m) len = byteSlice B m len := by
  unfold byteSlice
  rw [drop_append_len]

/-- Comprehensive characterization of a successful rebuild: the final loop state satisfies
the layout invariant, the output's header tables parse back to exactly the loop's tables,
the output length is the header plus the allocated sectors, and each slot's entry matches
its emit decision.  Byte values below 256 (real bytes) and a u32 wall-clock are assumed so
that the serialized tables round-trip. -/
theorem rebuild_ok_spec (original : List Nat) (updated : Nat → Option (List Nat × Bool))
    (now : Nat) (out : List Nat)
    (hok : rebuild_region original updated now = .ok out)
    (hb : ∀ x ∈ original, x < 256) (hnow : now < 4294967296) :
    ∃ st' : RState, stInv st' ∧
      out = locTableBytes st'.locs ++ (tsTableBytes st'.ts ++ st'.payload) ∧
      read_locations out = st'.locs ∧ read_timestamps out = st'.ts ∧
      out.length = 8192 + 4096 * sumCounts st'.locs ∧
      (∀ i, 1024 ≤ i → st'.locs.getD i (0, 0) = (0, 0) ∧ st'.ts.getD i 0 = 0) ∧
      (∀ idx, idx < 1024 →
        emitResultOK original updated (read_locations original)
          (read_timestamps original) now 2 st' idx) := by
  have h := rebuild_region_spec original updated now
  rw [hok] at h
  obtain ⟨st', hinv, hout, hfresh, hemit⟩ := h
  obtain ⟨hlen, htlen, hcur2, hpay, hcursum, hentries⟩ := hinv
  have hcntb : ∀ j, j < st'.locs.length → (st'.locs.getD j (0, 0)).2 ≤ 255 := by
    intro j _
    rcases hentries j with h0 | ⟨_, _, hc, _⟩
    · rw [h0]; omega
    · exact hc
  have hsumle : sumCounts st'.locs ≤ 255 * 1024 := by
    have := sumCounts_le_of_bounded st'.locs hcntb
    rw [hlen] at this
    exact this
  have hoff : ∀ i, i < 1024 → (st'.locs.getD i (0, 0)).1 < 16777216 := by
    intro i _
    rcases hentries i with h0 | ⟨_, _, _, he⟩
    · rw [h0]; omega
    · rw [he]
      have := sumCounts_take_le st'.locs i
      omega
  have hcnt' : ∀ i, i < 1024 → (st'.locs.getD i (0, 0)).2 < 256 := by
    intro i _
    rcases hentries i with h0 | ⟨_, _, hc, _⟩
    · rw [h0]; omega
    · omega
  have htsb : ∀ i, i < 1024 → st'.ts.getD i 0 < 4294967296 := by
    intro i hi
    have he := hemit i hi
    unfold emitResultOK at he
    cases hcase : emitAt original updated (read_locations original)
        (read_timestamps original) now i with
    | none =>
      rw [hcase] at he
      rw [he.2]
      omega
    | some p =>
      obtain ⟨b, t⟩ := p
      rw [hcase] at he
      rw [he.1]
      rcases emitAt_ts _ _ _ _ _ _ _ _ hcase with ht | ht
      · omega
      · rw [ht]
        exact read_timestamps_getD_lt original hb i
  have hrl : read_locations out = st'.locs := by
    rw [hout]
    exact read_locations_of_tables st'.locs st'.ts st'.payload hlen hoff hcnt'
  have hrt : read_timestamps out = st'.ts := by
    rw [hout]
    exact read_timestamps_of_tables st'.locs st'.ts st'.payload hlen htlen htsb
  refine ⟨st', ⟨hlen, htlen, hcur2, hpay, hcursum, hentries⟩, hout, hrl, hrt, ?_, hfresh, hemit⟩
  rw [hout]
  simp only [List.length_append, length_locTableBytes, length_tsTableBytes, hlen, htlen]
  omega

/-! ## C10: output length accounting -/

/-- On every successful rebuild, the output length is the 8 KiB header plus 4096 bytes
per sector recorded in the output's own location table, hence a multiple of 4096. -/
def rebuildLengthProp (original : List Nat) (updated : Nat → Option (List Nat × Bool))
    (now : Nat) : Prop :=
  ∀ out, rebuild_region original updated now = .ok out →
    out.length = 8192 + 4096 * sumCounts (read_locations out) ∧ out.length % 4096 = 0

/-- C10: for every input region (of real bytes) and `updated_blobs` map on which the
rebuild succeeds, the output byte length equals exactly 8192 plus 4096 times the sum of
the sector counts recorded in its location table (each emitted blob is zero-padded to a
sector boundary), so the output length is always a multiple of 4096. -/
theorem rebuild_region_length (original : List Nat)
    (updated : Nat → Option (List Nat × Bool)) (now : Nat)
    (hb : ∀ x ∈ original, x < 256) (hnow : now < 4294967296) :
    rebuildLengthProp original updated now := by
  intro out hok
  obtain ⟨st', _, _, hrl, _, hlen, _, _⟩ := rebuild_ok_spec original updated now out hok hb hnow
  rw [hrl]
  exact ⟨hlen, by omega⟩

theorem rebuild_region_length_witness :
    (∀ x ∈ List.replicate 8192 (0 : Nat), x < 256) ∧ (0 : Nat) < 4294967296 ∧
      rebuildLengthProp (List.replicate 8192 0) (fun _ => none) 0 := by
  have h1 : ∀ x ∈ List.replicate 8192 (0 : Nat), x < 256 := by
    intro x hx
    rw [List.eq_of_mem_replicate hx]
    omega
  exact ⟨h1, by omega, rebuild_region_length _ _ _ h1 (by omega)⟩

/-! ## C4: sector allocation and layout invariants -/

/-- Sector layout of the rebuilt region: a rebuild error is exactly an emitted blob
needing more than 255 sectors; on success, absent emit decisions give all-zero location
entries, every emitted chunk's entry records `sectorsNeededFor` its blob with offset at
least 2 equal to the compact ascending layout position, its byte range fits in the file,
and distinct emitted chunks occupy disjoint sector ranges. -/
def rebuildSectorProp (original : List Nat) (updated : Nat → Option (List Nat × Bool))
    (now : Nat) : Prop :=
  (∀ e, rebuild_region original updated now = .error e →
    ∃ idx b t, idx < 1024 ∧ rebuildEmit original updated now idx = some (b, t) ∧
      255 < sectorsNeededFor b ∧ e = .chunkTooLarge (sectorsNeededFor b)) ∧
  ∀ out, rebuild_region original updated now = .ok out →
    (∀ idx, idx < 1024 → rebuildEmit original updated now idx = none →
      (read_locations out).getD idx (0, 0) = (0, 0)) ∧
    (∀ idx, idx < 1024 → ∀ b t, rebuildEmit original updated now idx = some (b, t) →
      ((read_locations out).getD idx (0, 0)).2 = sectorsNeededFor b ∧
      sectorsNeededFor b ≤ 255 ∧
      2 ≤ ((read_locations out).getD idx (0, 0)).1 ∧
      ((read_locations out).getD idx (0, 0)).1 =
        2 + sumCounts ((read_locations out).take idx) ∧
      (((read_locations out).getD idx (0, 0)).1 +
        ((read_locations out).getD idx (0, 0)).2) * 4096 ≤ out.length) ∧
    (∀ i j, i < j → j < 1024 → ∀ bi ti bj tj,
      rebuildEmit original updated now i = some (bi, ti) →
      rebuildEmit original updated now j = some (bj, tj) →
      ((read_locations out).getD i (0, 0)).1 + ((read_locations out).getD i (0, 0)).2 ≤
        ((read_locations out).getD j (0, 0)).1)

/-- C4: the rebuild allocates each emitted chunk `max(1, ceil(len/4096))` sectors, fails
with a chunk-too-large error exactly when that count exceeds 255, writes chunks compactly
in ascending index order starting at sector 2, and in the output every present
location-table entry has offset at least 2 and an in-file byte range, no two emitted
entries' sector ranges overlap, and absent slots are all-zero entries. -/
theorem rebuild_region_sector_layout (original : List Nat)
    (updated : Nat → Option (List Nat × Bool)) (now : Nat)
    (hb : ∀ x ∈ original, x < 256) (hnow : now < 4294967296) :
    rebuildSectorProp original updated now := by
  constructor
  · intro e he
    have h := rebuild_region_spec original updated now
    rw [he] at h
    exact h
  · intro out hok
    obtain ⟨st', hinv, hout, hrl, hrt, hlen, hfresh, hemit⟩ :=
      rebuild_ok_spec original updated now out hok hb hnow
    obtain ⟨hL, hT, hcur2, hpay, hcursum, hentries⟩ := hinv
    have key : ∀ idx, idx < 1024 → ∀ b t,
        rebuildEmit original updated now idx = some (b, t) →
        (st'.locs.getD idx (0, 0)).2 = sectorsNeededFor b ∧ sectorsNeededFor b ≤ 255 ∧
        (st'.locs.getD idx (0, 0)).1 = 2 + sumCounts (st'.locs.take idx) := by
      intro idx hidx b t hsome
      have he := hemit idx hidx
      unfold emitResultOK at he
      unfold rebuildEmit at hsome
      rw [hsome] at he
      obtain ⟨hts, hcnt, h255, hoff2, hslice⟩ := he
      have hne : st'.locs.getD idx (0, 0) ≠ (0, 0) := by
        intro hz
        rw [hz] at hcnt
        have := sectorsNeededFor_pos b
        simp at hcnt
        omega
      rcases hentries idx with h0 | ⟨_, _, _, heq⟩
      · exact absurd h0 hne
      · exact ⟨hcnt, h255, heq⟩
    refine ⟨?_, ?_, ?_⟩
    · intro idx hidx hnone
      have he := hemit idx hidx
      unfold emitResultOK at he
      unfold rebuildEmit at hnone
      rw [hnone] at he
      rw [hrl]
      exact he.1
    · intro idx hidx b t hsome
      obtain ⟨hcnt, h255, heq⟩ := key idx hidx b t hsome
      rw [hrl, hlen]
      have hidx' : idx < st'.locs.length := by omega
      have hsucc := sumCounts_take_succ st'.locs idx hidx'
      have htl : sumCounts (st'.locs.take (idx + 1)) ≤ sumCounts st'.locs :=
        sumCounts_take_le _ _
      refine ⟨hcnt, h255, by omega, heq, by omega⟩
    · intro i j hij hj bi ti bj tj hsi hsj
      obtain ⟨hci, _, hei⟩ := key i (by omega) bi ti hsi
      obtain ⟨hcj, _, hej⟩ := key j hj bj tj hsj
      rw [hrl]
      have hi' : i < st'.locs.length := by omega
      have hsucc := sumCounts_take_succ st'.locs i hi'
      have hmono := sumCounts_take_mono st'.locs (i + 1) j (by omega)
      omega

theorem rebuild_region_sector_layout_witness :
    (∀ x ∈ List.replicate 8192 (0 : Nat), x < 256) ∧ (1 : Nat) < 4294967296 ∧
      rebuildSectorProp (List.replicate 8192 0) (fun _ => none) 1 := by
  have h1 : ∀ x ∈ List.replicate 8192 (0 : Nat), x < 256 := by
    intro x hx
    rw [List.eq_of_mem_replicate hx]
    omega
  exact ⟨h1, by omega, rebuild_region_sector_layout _ _ _ h1 (by omega)⟩



/-! ## A region with one present but unextractable chunk slot -/

/-- A region of exactly the 8 KiB header: slot 0's location entry points at sector 2 with
count 1, but the file ends at byte 8192, so extracting that chunk fails.  `tsTail` is the
4096-byte timestamp-table area. -/
def corruptHeadRegion (tsTail : List Nat) : List Nat :=
  [0, 0, 2, 1] ++ (List.replicate 4092 0 ++ tsTail)

theorem corruptHeadRegion_length (tsTail : List Nat) :
    (corruptHeadRegion tsTail).length = 4096 + tsTail.length := by
  unfold corruptHeadRegion
  rw [List.length_append, List.length_append, List.length_replicate]
  simp only [List.length_cons, List.length_nil]
  omega

theorem corruptHeadRegion_loc_head (tsTail : List Nat) :
    (read_locations (corruptHeadRegion tsTail)).getD 0 (0, 0) = (2, 1) := by
  rw [read_locations_getD _ 0 (by omega)]
  rfl

theorem corruptHeadRegion_loc_zero (tsTail : List Nat) (i : Nat) (h1 : 1 ≤ i)
    (h2 : i < 1024) :
    (read_locations (corruptHeadRegion tsTail)).getD i (0, 0) = (0, 0) := by
  rw [read_locations_getD _ i (by omega)]
  have hslice : ((corruptHeadRegion tsTail).drop (i * 4)).take 4 = List.replicate 4 0 := by
    unfold corruptHeadRegion
    rw [show i * 4 = ([0, 0, 2, 1] : List Nat).length + (i * 4 - 4) by
      simp only [List.length_cons, List.length_nil]; omega]
    rw [drop_append_len]
    rw [List.drop_append_of_le_length (by rw [List.length_replicate]; omega)]
    rw [List.drop_replicate]
    rw [List.take_append_of_le_length
      (by rw [List.length_replicate]; omega)]
    rw [List.take_replicate]
    congr 1
    omega
  rw [hslice]
  rfl

theorem drop_replicate_append {α : Type} (n : Nat) (a : α) (B : List α) :
    (List.replicate n a ++ B).drop n = B := by
  have h := drop_append_len (List.replicate n a) B 0
  rw [List.length_replicate, Nat.add_zero, List.drop_zero] at h
  exact h

theorem corruptHeadRegion_get_none (tsTail : List Nat) (hlen : tsTail.length = 4096) :
    get_chunk_blob (corruptHeadRegion tsTail) 2 1 = none := by
  have hcond : (corruptHeadRegion tsTail).length < 2 * 4096 + 5 ∨
      (corruptHeadRegion tsTail).length < 2 * 4096 + 1 * 4096 := by
    rw [corruptHeadRegion_length, hlen]
    omega
  simp only [get_chunk_blob]
  rw [if_neg (by simp), if_pos hcond]

theorem corruptHeadRegion_ts_head (tsTail : List Nat) :
    (read_timestamps (corruptHeadRegion tsTail)).getD 0 0 =
      beBytesToNat (tsTail.take 4) := by
  rw [read_timestamps_getD _ 0 (by omega)]
  unfold corruptHeadRegion
  rw [show 4096 + 0 * 4 = ([0, 0, 2, 1] : List Nat).length + 4092 by
    simp only [List.length_cons, List.length_nil]]
  rw [drop_append_len, drop_replicate_append]

theorem corruptHeadRegion_emit_none (tsTail : List Nat) (hlen : tsTail.length = 4096)
    (U : Nat → Option (List Nat × Bool)) (hU : U 0 = none) (now idx : Nat)
    (hidx : idx < 1024) :
    emitAt (corruptHeadRegion tsTail) U (read_locations (corruptHeadRegion tsTail))
      (read_timestamps (corruptHeadRegion tsTail)) now idx = none := by
  simp only [emitAt]
  by_cases h0 : idx = 0
  · subst h0
    rw [corruptHeadRegion_loc_head tsTail]
    rw [if_neg (by simp)]
    simp only [hU, corruptHeadRegion_get_none tsTail hlen]
    rfl
  · rw [corruptHeadRegion_loc_zero tsTail idx (by omega) hidx]
    exact if_pos (Or.inl rfl)

theorem rebuildLoop_all_none (original : List Nat)
    (updated : Nat → Option (List Nat × Bool)) (locsOld : List (Nat × Nat))
    (tsOld : List Nat) (now : Nat) (idxs : List Nat) (st : RState)
    (h : ∀ i ∈ idxs, emitAt original updated locsOld tsOld now i = none) :
    rebuildLoop original updated locsOld tsOld now idxs st = .ok st := by
  induction idxs with
  | nil => rfl
  | cons i rest ih =>
    rw [rebuildLoop_cons_none _ _ _ _ _ _ _ _ (h i (by simp))]
    exact ih (fun j hj => h j (by simp [hj]))

theorem rebuild_corruptHeadRegion (tsTail : List Nat) (hlen : tsTail.length = 4096)
    (U : Nat → Option (List Nat × Bool)) (hU : U 0 = none) (now : Nat) :
    rebuild_region (corruptHeadRegion tsTail) U now =
      .ok (locTableBytes (List.replicate 1024 (0, 0)) ++
        tsTableBytes (List.replicate 1024 0) ++ []) := by
  unfold rebuild_region
  rw [rebuildLoop_all_none _ _ _ _ _ _ _
    (fun i hi => corruptHeadRegion_emit_none tsTail hlen U hU now i (List.mem_range.mp hi))]

/-! ## C7: timestamp propagation -/

/-- Timestamp-table area whose slot-0 value is 7. -/
def corruptTsTail : List Nat := [0, 0, 0, 7] ++ List.replicate 4092 0

/-- C7 counterexample: a region whose slot 0 is present (location entry `(2, 1)`) but
whose chunk cannot be re-extracted (the file ends at the header), with original
timestamp 7.  The chunk's palettes did not change (`updated_blobs` is empty), yet the
rebuilt region records timestamp 0 for that slot instead of preserving 7: the loop
`continue`s before copying the original timestamp. -/
theorem rebuild_corrupt_slot_drops_timestamp :
    rebuild_region (corruptHeadRegion corruptTsTail) (fun _ => none) 0 =
      .ok (locTableBytes (List.replicate 1024 (0, 0)) ++
        tsTableBytes (List.replicate 1024 0) ++ []) ∧
    (read_locations (corruptHeadRegion corruptTsTail)).getD 0 (0, 0) = (2, 1) ∧
    get_chunk_blob (corruptHeadRegion corruptTsTail) 2 1 = none ∧
    (read_timestamps (corruptHeadRegion corruptTsTail)).getD 0 0 = 7 ∧
    (read_timestamps (locTableBytes (List.replicate 1024 (0, 0)) ++
        tsTableBytes (List.replicate 1024 0) ++ [])).getD 0 0 = 0 := by
  have hlen : corruptTsTail.length = 4096 := by
    unfold corruptTsTail
    rw [List.length_append, List.length_replicate]
    rfl
  refine ⟨rebuild_corruptHeadRegion corruptTsTail hlen _ rfl 0,
    corruptHeadRegion_loc_head corruptTsTail,
    corruptHeadRegion_get_none corruptTsTail hlen, ?_, ?_⟩
  · rw [corruptHeadRegion_ts_head]
    rfl
  · rw [List.append_assoc]
    rw [read_timestamps_of_tables (List.replicate 1024 (0, 0)) (List.replicate 1024 0) []
      (by rw [List.length_replicate]) (by rw [List.length_replicate])
      (fun i _ => by rw [getD_replicate]; omega)]
    exact getD_replicate 1024 0 0

/-- Timestamp handling of `_rebuild_region` per slot: absent slots stay 0; a present slot
in `updated_blobs` gets the wall clock if flagged changed, else its original timestamp; a
present slot not in `updated_blobs` keeps its original timestamp when re-extraction
succeeds, but is recorded as 0 (not preserved) when re-extraction fails. -/
def rebuildTimestampProp (original : List Nat) (updated : Nat → Option (List Nat × Bool))
    (now : Nat) : Prop :=
  ∀ out, rebuild_region original updated now = .ok out →
  ∀ idx, idx < 1024 → ∀ off cnt,
    (read_locations original).getD idx (0, 0) = (off, cnt) →
    ((off = 0 ∨ cnt = 0) → (read_timestamps out).getD idx 0 = 0) ∧
    (¬(off = 0 ∨ cnt = 0) →
      (∀ b, updated idx = some (b, true) → (read_timestamps out).getD idx 0 = now) ∧
      (∀ b, updated idx = some (b, false) →
        (read_timestamps out).getD idx 0 = (read_timestamps original).getD idx 0) ∧
      (updated idx = none →
        (∀ b, get_chunk_blob original off cnt = some b →
          (read_timestamps out).getD idx 0 = (read_timestamps original).getD idx 0) ∧
        (get_chunk_blob original off cnt = none →
          (read_timestamps out).getD idx 0 = 0)))

/-- C7 (amended): in the rebuilt region a changed chunk's timestamp is the rebuild-time
wall clock, a present unchanged chunk whose blob is obtainable keeps its original
timestamp, and absent slots are zero — but a present slot whose re-extraction fails is
recorded with timestamp 0 rather than keeping its original value. -/
theorem rebuild_region_timestamps (original : List Nat)
    (updated : Nat → Option (List Nat × Bool)) (now : Nat)
    (hb : ∀ x ∈ original, x < 256) (hnow : now < 4294967296) :
    rebuildTimestampProp original updated now := by
  intro out hok idx hidx off cnt hoc
  obtain ⟨st', hinv, hout, hrl, hrt, hlen, hfresh, hemit⟩ :=
    rebuild_ok_spec original updated now out hok hb hnow
  have he := hemit idx hidx
  unfold emitResultOK at he
  constructor
  · intro h0
    have h0' : ((read_locations original).getD idx (0, 0)).1 = 0 ∨
        ((read_locations original).getD idx (0, 0)).2 = 0 := by
      rw [hoc]; exact h0
    have hnone : emitAt original updated (read_locations original)
        (read_timestamps original) now idx = none := by
      simp only [emitAt]
      exact if_pos h0'
    rw [hnone] at he
    rw [hrt]
    exact he.2
  · intro hpres
    have hpres' : ¬(((read_locations original).getD idx (0, 0)).1 = 0 ∨
        ((read_locations original).getD idx (0, 0)).2 = 0) := by
      rw [hoc]; exact hpres
    refine ⟨?_, ?_, ?_⟩
    · intro b hb1
      have hsome : emitAt original updated (read_locations original)
          (read_timestamps original) now idx = some (b, now) := by
        simp only [emitAt, hb1]
        rw [if_neg hpres']
        rfl
      rw [hsome] at he
      rw [hrt]
      exact he.1
    · intro b hb1
      have hsome : emitAt original updated (read_locations original)
          (read_timestamps original) now idx =
          some (b, (read_timestamps original).getD idx 0) := by
        simp only [emitAt, hb1]
        rw [if_neg hpres']
        rfl
      rw [hsome] at he
      rw [hrt]
      exact he.1
    · intro hu
      constructor
      · intro b hg
        have hg' : get_chunk_blob original ((read_locations original).getD idx (0, 0)).1
            ((read_locations original).getD idx (0, 0)).2 = some b := by
          rw [hoc]; exact hg
        have hsome : emitAt original updated (read_locations original)
            (read_timestamps original) now idx =
            some (b, (read_timestamps original).getD idx 0) := by
          simp only [emitAt, hu, hg']
          rw [if_neg hpres']
          rfl
        rw [hsome] at he
        rw [hrt]
        exact he.1
      · intro hg
        have hg' : get_chunk_blob original ((read_locations original).getD idx (0, 0)).1
            ((read_locations original).getD idx (0, 0)).2 = none := by
          rw [hoc]; exact hg
        have hnone : emitAt original updated (read_locations original)
            (read_timestamps original) now idx = none := by
          simp only [emitAt, hu, hg']
          rw [if_neg hpres']
          rfl
        rw [hnone] at he
        rw [hrt]
        exact he.2

theorem rebuild_region_timestamps_witness :
    (∀ x ∈ List.replicate 8192 (0 : Nat), x < 256) ∧ (2 : Nat) < 4294967296 ∧
      rebuildTimestampProp (List.replicate 8192 0) (fun _ => none) 2 := by
  have h1 : ∀ x ∈ List.replicate 8192 (0 : Nat), x < 256 := by
    intro x hx
    rw [List.eq_of_mem_replicate hx]
    omega
  exact ⟨h1, by omega, rebuild_region_timestamps _ _ _ h1 (by omega)⟩

/-! ## C3: failed chunks are carried verbatim or dropped from the tables -/

/-- The `updated_blobs` dict built by the chunk loop of `_process_region_file`: a present
slot whose blob extracts and whose processing rewrites the chunk maps to the new blob
with changed flag `True`; extraction failures, parse errors and unchanged chunks are
absent from the dict. -/
def updatedMap (gzipC zlibC : List Nat → List Nat)
    (gunzip zunzip : List Nat → Option (List Nat))
    (parseNbt : List Nat → Option Nbt) (writeNbt : Nbt → List Nat)
    (mapping : String → Option String) (fallback : Option String)
    (yMin yMax : Option Int) (original : List Nat) (idx : Nat) :
    Option (List Nat × Bool) :=
  let e := (read_locations original).getD idx (0, 0)
  if e.1 = 0 ∨ e.2 = 0 then none
  else
    match get_chunk_blob original e.1 e.2 with
    | none => none
    | some blob =>
      match process_chunk gzipC zlibC gunzip zunzip parseNbt writeNbt mapping fallback
          yMin yMax blob with
      | .rewritten nb _ => some (nb, true)
      | _ => none

/-- Carrying behaviour of the rebuild for present slots the processing loop left out of
`updated_blobs`: a slot whose extraction fails is recorded as absent (all-zero table
entries); a slot that extracts to blob `b` but whose processing fails with a parse error
is copied byte-identically into the output at its new sector offset. -/
def rebuildCarryProp (gzipC zlibC : List Nat → List Nat)
    (gunzip zunzip : List Nat → Option (List Nat))
    (parseNbt : List Nat → Option Nbt) (writeNbt : Nbt → List Nat)
    (mapping : String → Option String) (fallback : Option String)
    (yMin yMax : Option Int) (original : List Nat) (now : Nat) : Prop :=
  ∀ out, rebuild_region original
      (updatedMap gzipC zlibC gunzip zunzip parseNbt writeNbt mapping fallback
        yMin yMax original) now = .ok out →
  ∀ idx, idx < 1024 → ∀ off cnt,
    (read_locations original).getD idx (0, 0) = (off, cnt) →
    ¬(off = 0 ∨ cnt = 0) →
    (get_chunk_blob original off cnt = none →
      (read_locations out).getD idx (0, 0) = (0, 0) ∧
      (read_timestamps out).getD idx 0 = 0) ∧
    (∀ b, get_chunk_blob original off cnt = some b →
      process_chunk gzipC zlibC gunzip zunzip parseNbt writeNbt mapping fallback
        yMin yMax b = .parseError →
      ∃ o2, 2 ≤ o2 ∧ (read_locations out).getD idx (0, 0) = (o2, sectorsNeededFor b) ∧
        byteSlice out (o2 * 4096) b.length = b)

/-- C3: for every present chunk slot whose blob extraction, decompression or NBT parse
fails during region processing (hence absent from `updated_blobs`), the rebuild copies
the chunk's original blob bytes byte-identically into the output at its newly assigned
sectors, and a present slot whose re-extraction during rebuild fails is recorded as
absent (zero location and timestamp entries) in the output tables. -/
theorem rebuild_carries_failed_chunks (gzipC zlibC : List Nat → List Nat)
    (gunzip zunzip : List Nat → Option (List Nat))
    (parseNbt : List Nat → Option Nbt) (writeNbt : Nbt → List Nat)
    (mapping : String → Option String) (fallback : Option String)
    (yMin yMax : Option Int) (original : List Nat) (now : Nat)
    (hb : ∀ x ∈ original, x < 256) (hnow : now < 4294967296) :
    rebuildCarryProp gzipC zlibC gunzip zunzip parseNbt writeNbt mapping fallback
      yMin yMax original now := by
  intro out hok idx hidx off cnt hoc hpres
  obtain ⟨st', hinv, hout, hrl, hrt, hlen, hfresh, hemit⟩ :=
    rebuild_ok_spec original _ now out hok hb hnow
  have he := hemit idx hidx
  unfold emitResultOK at he
  have hpres' : ¬(((read_locations original).getD idx (0, 0)).1 = 0 ∨
      ((read_locations original).getD idx (0, 0)).2 = 0) := by
    rw [hoc]; exact hpres
  constructor
  · intro hg
    have hg' : get_chunk_blob original ((read_locations original).getD idx (0, 0)).1
        ((read_locations original).getD idx (0, 0)).2 = none := by
      rw [hoc]; exact hg
    have hU : updatedMap gzipC zlibC gunzip zunzip parseNbt writeNbt mapping fallback
        yMin yMax original idx = none := by
      simp only [updatedMap, hg']
      rw [if_neg hpres']
    have hnone : emitAt original
        (updatedMap gzipC zlibC gunzip zunzip parseNbt writeNbt mapping fallback
          yMin yMax original)
        (read_locations original) (read_timestamps original) now idx = none := by
      simp only [emitAt, hU, hg']
      rw [if_neg hpres']
      rfl
    rw [hnone] at he
    rw [hrl, hrt]
    exact he
  · intro b hg hpe
    have hg' : get_chunk_blob original ((read_locations original).getD idx (0, 0)).1
        ((read_locations original).getD idx (0, 0)).2 = some b := by
      rw [hoc]; exact hg
    have hU : updatedMap gzipC zlibC gunzip zunzip parseNbt writeNbt mapping fallback
        yMin yMax original idx = none := by
      simp only [updatedMap, hg', hpe]
      rw [if_neg hpres']
    have hsome : emitAt original
        (updatedMap gzipC zlibC gunzip zunzip parseNbt writeNbt mapping fallback
          yMin yMax original)
        (read_locations original) (read_timestamps original) now idx =
        some (b, (read_timestamps original).getD idx 0) := by
      simp only [emitAt, hU, hg']
      rw [if_neg hpres']
      rfl
    rw [hsome] at he
    obtain ⟨hts, hcnt, h255, hoff2, hslice⟩ := he
    have hL : st'.locs.length = 1024 := hinv.1
    have hT : st'.ts.length = 1024 := hinv.2.1
    refine ⟨(st'.locs.getD idx (0, 0)).1, hoff2, ?_, ?_⟩
    · rw [hrl]
      exact Prod.ext rfl hcnt
    · rw [hout]
      have hltlen : (locTableBytes st'.locs).length = 4096 := by
        rw [length_locTableBytes, hL]
      have htslen : (tsTableBytes st'.ts).length = 4096 := by
        rw [length_tsTableBytes, hT]
      rw [show (st'.locs.getD idx (0, 0)).1 * 4096 =
          (locTableBytes st'.locs).length +
            ((tsTableBytes st'.ts).length +
              ((st'.locs.getD idx (0, 0)).1 - 2) * 4096) by
        rw [hltlen, htslen]; omega]
      rw [byteSlice_append_shift, byteSlice_append_shift]
      exact hslice

theorem rebuild_carries_failed_chunks_witness :
    (∀ x ∈ corruptHeadRegion (List.replicate 4096 0), x < 256) ∧ (0 : Nat) < 4294967296 ∧
      rebuildCarryProp (fun l => l) (fun l => l) (fun _ => none) (fun _ => none)
        (fun _ => none) (fun _ => []) (fun _ => none) none none none
        (corruptHeadRegion (List.replicate 4096 0)) 0 := by
  have h1 : ∀ x ∈ corruptHeadRegion (List.replicate 4096 0), x < 256 := by
    intro x hx
    unfold corruptHeadRegion at hx
    rcases List.mem_append.mp hx with h1 | h2
    · simp at h1
      omega
    · rcases List.mem_append.mp h2 with h3 | h4
      · rw [List.eq_of_mem_replicate h3]; omega
      · rw [List.eq_of_mem_replicate h4]; omega
  exact ⟨h1, by omega, rebuild_carries_failed_chunks _ _ _ _ _ _ _ _ _ _ _ _ h1 (by omega)⟩
